import Mathlib

/-!
# Verification of the golox tree-walking interpreter

Shallow embedding of the golox source (scanner, recursive-descent parser,
tree-walking interpreter with its environment chain), translated from the
Go sources:

* `src/unnamed/part_001` — scanner (`Scanner.ScanTokens` and helpers) and
  parser (`Parser.Parse`, the expression/statement productions,
  `Parser.synchronize`),
* `src/unnamed/part_000` — token kinds (`token` package) and
  `GoloxFunction.Call` (the revision returning `(any, error)` consistent
  with `interpreter.go`'s `GoloxCallable` interface),
* `src/interpreter/interpreter.go` — the evaluator (`Interpreter` visitor
  methods, `ExecuteBlock`, `Interpret`),
* `src/interpreter/environment.go` (third revision, the one matching
  `interpreter.go`: `Get` returns `(any, error)`) — `Environment`,
  `NewEnvironment`, `Define`, `Get`, `assign`,
* `src/main.go` — the initial interpreter state built by `run`.

Modelling conventions:

* Go `float64` is modelled by `FloatVal`: either an exact rational or one
  of the IEEE special values `inf`, `ninf`, `nan`.  Arithmetic on finite
  values is exact (no rounding/overflow); the special values follow the
  IEEE rules the Go operators implement.  Every program appearing in a
  theorem below only performs rounding-free operations, so the gap is not
  exercised.
* Go maps (`map[string]any`) and heap-allocated `Environment` structs are
  modelled by an explicit `Heap` of cells addressed by list index; Go
  pointers (`*Environment`) become indices, and `NewEnvironment`'s
  by-value `enclosing` parameter becomes an explicit copy of the
  `EnvRef` record into a fresh heap cell, exactly as Go copies the struct.
* Go's unbounded recursion (environment-chain walks, the evaluator, the
  parser's mutual recursion) is modelled with an explicit fuel argument;
  running out of fuel is a distinguished outcome (`Res.fuelout`) that no
  theorem below confuses with the program's own results.  The chain walks
  `Get`/`assign` receive fuel `envCells.length + 1`, which can only be
  exhausted on a cyclic chain — a shape the interpreter never allocates.
* Calling a method on a nil Go interface value (which panics at runtime)
  is modelled by the outcome `Res.panicked`; the parser's `&ast.Binary{}`
  fall-through node is modelled by the explicit `Expr.nilE` child.
* Go interface equality `a == b` on `*GoloxFunction` compares pointers;
  function values therefore carry an allocation id (`Value.fn`), compared
  by id.
-/

/-- Token kinds, from the `token` package constants (`src/unnamed/part_000`).
`TokenType.empty` is the zero value `TokenType("")`, which is the type of
the zero `token.Token` inside the parser's `&ast.Binary{}` node. -/
inductive TokenType where
  | leftParen | rightParen | leftBrace | rightBrace
  | comma | dot | minus | plus | semicolon | slash | star
  | bang | bangEqual | equal | equalEqual
  | greater | greaterEqual | less | lessEqual
  | identifier | stringTk | number
  | andTk | classTk | elseTk | falseTk | funTk | forTk | ifTk | nilTk
  | orTk | printTk | returnTk | superTk | thisTk | trueTk | varTk | whileTk
  | eof
  | empty
deriving DecidableEq, Repr

/-- Go `float64`, modelled as an exact rational plus the IEEE special
values produced by the interpreter's `/` on zero divisors. -/
inductive FloatVal where
  | fin (q : ℚ)
  | inf
  | ninf
  | nan
deriving DecidableEq, Repr

namespace FloatVal

/-- IEEE `==` on `float64` as used by Go's `==`: `nan` is not equal to
anything (including itself); finite values compare by value. -/
def feq : FloatVal → FloatVal → Bool
  | fin a, fin b => if a = b then true else false
  | inf, inf => true
  | ninf, ninf => true
  | _, _ => false

/-- IEEE `<` on `float64` (Go `<`): any comparison with `nan` is false. -/
def flt : FloatVal → FloatVal → Bool
  | fin a, fin b => if a < b then true else false
  | fin _, inf => true
  | ninf, fin _ => true
  | ninf, inf => true
  | _, _ => false

/-- IEEE `<=` on `float64` (Go `<=`). -/
def fle : FloatVal → FloatVal → Bool
  | fin a, fin b => if a ≤ b then true else false
  | fin _, inf => true
  | ninf, fin _ => true
  | ninf, inf => true
  | inf, inf => true
  | ninf, ninf => true
  | _, _ => false

/-- IEEE negation (Go unary `-`). -/
def fneg : FloatVal → FloatVal
  | fin a => fin (-a)
  | inf => ninf
  | ninf => inf
  | nan => nan

/-- IEEE addition on the modelled values (exact on finite operands). -/
def fadd : FloatVal → FloatVal → FloatVal
  | fin a, fin b => fin (a + b)
  | fin _, inf => inf
  | fin _, ninf => ninf
  | inf, fin _ => inf
  | ninf, fin _ => ninf
  | inf, inf => inf
  | ninf, ninf => ninf
  | _, _ => nan

/-- IEEE subtraction on the modelled values (exact on finite operands). -/
def fsub (a b : FloatVal) : FloatVal := fadd a (fneg b)

/-- IEEE multiplication on the modelled values (exact on finite operands);
`0 * ±∞` is `nan`. -/
def fmul : FloatVal → FloatVal → FloatVal
  | fin a, fin b => fin (a * b)
  | fin a, inf => if a > 0 then inf else if a < 0 then ninf else nan
  | fin a, ninf => if a > 0 then ninf else if a < 0 then inf else nan
  | inf, fin b => if b > 0 then inf else if b < 0 then ninf else nan
  | ninf, fin b => if b > 0 then ninf else if b < 0 then inf else nan
  | inf, inf => inf
  | inf, ninf => ninf
  | ninf, inf => ninf
  | ninf, ninf => inf
  | _, _ => nan

/-- IEEE division on the modelled values (exact when both operands are
finite and the divisor is nonzero); division by zero yields `±∞` or `nan`,
exactly the behaviour the spec assigns to Go's `/`. -/
def fdiv : FloatVal → FloatVal → FloatVal
  | fin a, fin b =>
      if b ≠ 0 then fin (a / b)
      else if a > 0 then inf else if a < 0 then ninf else nan
  | fin _, inf => fin 0
  | fin _, ninf => fin 0
  | inf, fin b => if b < 0 then ninf else inf
  | ninf, fin b => if b < 0 then inf else ninf
  | _, _ => nan

end FloatVal

/-- The values a `token.Token`'s `Literal any` field and an
`ast.Literal`'s `Value any` field may hold: Go `nil`, a bool, a string, or
a `float64`. -/
inductive LitVal where
  | vnil
  | vbool (b : Bool)
  | vstr (s : List Char)
  | vnum (f : FloatVal)
deriving DecidableEq, Repr

/-- `token.Token` (`src/unnamed/part_000`): kind, lexeme, decoded literal,
1-based line. -/
structure Token where
  type : TokenType
  lexeme : List Char
  literal : LitVal
  line : Nat
deriving DecidableEq, Repr

/-- The zero `token.Token` (all fields at their Go zero values), the
`Operator` of the parser's `&ast.Binary{}` fall-through node. -/
def Token.zero : Token := ⟨.empty, [], .vnil, 0⟩

instance : Inhabited Token := ⟨Token.zero⟩

mutual
/-- `ast.Expr` (`src/ast/expr.go`): the expression node variants the
parser builds.  `nilE` stands for a nil `ast.Expr` interface value (the
`Left`/`Right` children of the parser's `&ast.Binary{}`); calling `Accept`
on it panics. -/
inductive Expr where
  | litE (value : LitVal)
  | grouping (expression : Expr)
  | unary (operator : Token) (right : Expr)
  | binary (left : Expr) (operator : Token) (right : Expr)
  | logical (left : Expr) (operator : Token) (right : Expr)
  | variable (name : Token)
  | assign (name : Token) (value : Expr)
  | call (callee : Expr) (paren : Token) (arguments : List Expr)
  | nilE

/-- `statement.Stmt` (`src/statement/statement.go`): the statement node
variants.  Optional children (`If.ElseBranch`, `Variable.Initializer`,
`Return.Value`) are `Option`s because the interpreter nil-checks them. -/
inductive Stmt where
  | expression (expr : Expr)
  | print (expr : Expr)
  | varDecl (name : Token) (initializer : Option Expr)
  | block (statements : List Stmt)
  | ifS (condition : Expr) (thenBranch : Stmt) (elseBranch : Option Stmt)
  | whileS (condition : Expr) (body : Stmt)
  | function (name : Token) (params : List Token) (body : List Stmt)
  | returnS (keyword : Token) (value : Option Expr)
end

/-- Runtime values (the `any` results of the evaluator).  `fn` is a
`*GoloxFunction`: an allocation id (Go compares these pointers by
identity) plus the captured `statement.Function` declaration — and nothing
else: the Go struct has a single `Declaration` field.  `clockNative` is
`main.go`'s `clock{}` (an empty struct defined into the global frame; its
pointer-receiver methods mean it does not satisfy `GoloxCallable`, so
calling it fails the callable check). -/
inductive Value where
  | nil
  | bool (b : Bool)
  | num (f : FloatVal)
  | str (s : List Char)
  | fn (id : Nat) (name : Token) (params : List Token) (body : List Stmt)
  | clockNative

/-- A literal's decoded value as a runtime value (`VisitLiteralExpr`
returns `expr.Value` unchanged). -/
def litToValue : LitVal → Value
  | .vnil => .nil
  | .vbool b => .bool b
  | .vstr s => .str s
  | .vnum f => .num f

/-- `interpreter.Environment` as a Go struct *value*: the `Enclosing`
pointer is an index into the heap's environment cells, the `Values` map is
an index into the heap's map cells.  Copying the struct copies exactly
these two references, as Go does. -/
structure EnvRef where
  enclosing : Option Nat
  values : Nat
deriving DecidableEq, Repr

/-- The mutable store: heap-allocated `Environment` structs (targets of
`*Environment` pointers) and `map[string]any` cells. -/
structure Heap where
  envCells : List EnvRef
  mapCells : List (List (List Char × Value))

/-- Lookup in a `map[string]any` cell. -/
def mapGet (cell : List (List Char × Value)) (k : List Char) : Option Value :=
  match cell with
  | [] => none
  | (k', v) :: rest => if k' = k then some v else mapGet rest k

/-- Insert-or-update in a `map[string]any` cell. -/
def mapSet (cell : List (List Char × Value)) (k : List Char) (v : Value) :
    List (List Char × Value) :=
  match cell with
  | [] => [(k, v)]
  | (k', v') :: rest =>
      if k' = k then (k', v) :: rest else (k', v') :: mapSet rest k v

/-- `NewEnvironment` (`environment.go`): allocates a fresh empty map and a
fresh heap cell holding a *copy* of the by-value `enclosing` argument, and
returns an `Environment` struct pointing at both. -/
def newEnvironment (enclosing : EnvRef) (h : Heap) : EnvRef × Heap :=
  (⟨some h.envCells.length, h.mapCells.length⟩,
   ⟨h.envCells ++ [enclosing], h.mapCells ++ [[]]⟩)

/-- `Environment.Define`: always writes to the current frame's map. -/
def envDefine (e : EnvRef) (h : Heap) (k : List Char) (v : Value) : Heap :=
  ⟨h.envCells, h.mapCells.set e.values (mapSet (h.mapCells.getD e.values []) k v)⟩

/-- `Environment.Get` (third revision of `environment.go`): walk the chain
from the innermost frame outward; `none` is the
`"Undefined variable %v."` error.  `fuel` bounds the pointer walk; the
interpreter passes `envCells.length + 1`, enough for any acyclic chain. -/
def envGet (h : Heap) (e : EnvRef) (k : List Char) : Nat → Option Value
  | 0 => none
  | fuel + 1 =>
      match mapGet (h.mapCells.getD e.values []) k with
      | some v => some v
      | none =>
          match e.enclosing with
          | some a =>
              match h.envCells.get? a with
              | some e' => envGet h e' k fuel
              | none => none
          | none => none

/-- `Environment.assign`: walk the chain to the first frame owning the
name and overwrite it there; when no frame owns the name the Go code
merely prints `"Undefined variable ..."` and returns — the heap is left
unchanged and no error is produced. -/
def envAssign (h : Heap) (e : EnvRef) (k : List Char) (v : Value) : Nat → Heap
  | 0 => h
  | fuel + 1 =>
      if (mapGet (h.mapCells.getD e.values []) k).isSome then
        ⟨h.envCells, h.mapCells.set e.values (mapSet (h.mapCells.getD e.values []) k v)⟩
      else
        match e.enclosing with
        | some a =>
            match h.envCells.get? a with
            | some e' => envAssign h e' k v fuel
            | none => h
        | none => h

/-- Outcome of one evaluator step: Go's `(any, error)` pair, plus
`panicked` for a method call on a nil interface value and `fuelout` for
exhaustion of the modelling fuel (never produced by the Go code itself). -/
inductive Res where
  | ok (v : Value)
  | err (msg : String)
  | panicked
  | fuelout

/-- The interpreter's mutable state: the shared heap, the two
`Environment` struct-valued fields of `Interpreter`, everything printed so
far, and the allocation counter for `*GoloxFunction` identities. -/
structure GState where
  heap : Heap
  environment : EnvRef
  globals : EnvRef
  output : List Value
  nextFnId : Nat

/-- `Interpreter.isTruthy`: everything except `nil` and `false` is truthy. -/
def isTruthy : Value → Bool
  | .nil => false
  | .bool b => b
  | _ => true

/-- Go `a == b` on two non-nil interface values: equal dynamic types and
equal comparable payloads; `*GoloxFunction` pointers compare by identity,
`float64` by IEEE equality. -/
def valueEq : Value → Value → Bool
  | .nil, .nil => true
  | .bool a, .bool b => if a = b then true else false
  | .num a, .num b => FloatVal.feq a b
  | .str a, .str b => if a = b then true else false
  | .fn i _ _ _, .fn j _ _ _ => if i = j then true else false
  | .clockNative, .clockNative => true
  | _, _ => false

/-- `Interpreter.isEqual` (`interpreter.go`): nil is equal only to nil;
otherwise Go `==`. -/
def isEqual (a b : Value) : Bool :=
  match a, b with
  | .nil, .nil => true
  | .nil, _ => false
  | _, _ => valueEq a b

/-- The `switch expr.Operator.Type` of `VisitBinaryExpr`, applied to the
two already-evaluated operands (the state is not touched here). -/
def binOp (op : Token) (lv rv : Value) : Res :=
  match op.type with
  | .bangEqual => .ok (.bool (!isEqual lv rv))
  | .equalEqual => .ok (.bool (isEqual lv rv))
  | .greater =>
      match lv, rv with
      | .num a, .num b => .ok (.bool (FloatVal.flt b a))
      | _, _ => .err "operands must be numbers"
  | .greaterEqual =>
      match lv, rv with
      | .num a, .num b => .ok (.bool (FloatVal.fle b a))
      | _, _ => .err "operands must be numbers"
  | .less =>
      match lv, rv with
      | .num a, .num b => .ok (.bool (FloatVal.flt a b))
      | _, _ => .err "operands must be numbers"
  | .lessEqual =>
      match lv, rv with
      | .num a, .num b => .ok (.bool (FloatVal.fle a b))
      | _, _ => .err "operands must be numbers"
  | .minus =>
      match lv, rv with
      | .num a, .num b => .ok (.num (FloatVal.fsub a b))
      | _, _ => .err "operands must be numbers"
  | .plus =>
      match lv, rv with
      | .str a, .str b => .ok (.str (a ++ b))
      | .num a, .num b => .ok (.num (FloatVal.fadd a b))
      | _, _ => .err "operands must be two numbers or two strings"
  | .slash =>
      match lv, rv with
      | .num a, .num b => .ok (.num (FloatVal.fdiv a b))
      | _, _ => .err "operands must be numbers"
  | .star =>
      match lv, rv with
      | .num a, .num b => .ok (.num (FloatVal.fmul a b))
      | _, _ => .err "operands must be numbers"
  | _ => .ok .nil

/-- The parameter-binding loop of `GoloxFunction.Call`: `Define` each
parameter name to the corresponding argument in the fresh call frame. -/
def bindParams (env : EnvRef) : Heap → List (Token × Value) → Heap
  | h, [] => h
  | h, (p, v) :: rest => bindParams env (envDefine env h p.lexeme v) rest

mutual

/-- `Interpreter.evaluate` / the `Visit*Expr` dispatch (`interpreter.go`).
Evaluating a nil `ast.Expr` interface value panics. -/
def evaluate : Nat → Expr → GState → GState × Res
  | 0, _, s => (s, .fuelout)
  | _ + 1, .litE v, s => (s, .ok (litToValue v))
  | fuel + 1, .grouping e, s => evaluate fuel e s
  | _ + 1, .variable name, s =>
      match envGet s.heap s.environment name.lexeme (s.heap.envCells.length + 1) with
      | some v => (s, .ok v)
      | none => (s, .err ("Undefined variable " ++ String.mk name.lexeme ++ "."))
  | fuel + 1, .assign name e, s =>
      match evaluate fuel e s with
      | (s1, .ok v) =>
          let h := envAssign s1.heap s1.environment name.lexeme v (s1.heap.envCells.length + 1)
          ({s1 with heap := h}, .ok v)
      | other => other
  | fuel + 1, .logical l op r, s =>
      match evaluate fuel l s with
      | (s1, .ok lv) =>
          if op.type = .orTk then
            if isTruthy lv then (s1, .ok lv) else evaluate fuel r s1
          else
            if !isTruthy lv then (s1, .ok lv) else evaluate fuel r s1
      | other => other
  | fuel + 1, .unary op r, s =>
      match evaluate fuel r s with
      | (s1, .ok rv) =>
          match op.type with
          | .minus =>
              match rv with
              | .num f => (s1, .ok (.num (FloatVal.fneg f)))
              | _ => (s1, .err "operand must be a number")
          | .bang => (s1, .ok (.bool (!isTruthy rv)))
          | _ => (s1, .ok .nil)
      | other => other
  | fuel + 1, .binary l op r, s =>
      match evaluate fuel l s with
      | (s1, .ok lv) =>
          match evaluate fuel r s1 with
          | (s2, .ok rv) => (s2, binOp op lv rv)
          | other => other
      | other => other
  | fuel + 1, .call callee _ args, s =>
      match evaluate fuel callee s with
      | (s1, .ok cv) =>
          match evalArgs fuel args s1 with
          | (s2, .inr vs) =>
              match cv with
              | .fn _ name params body =>
                  if vs.length = params.length then
                    callGoloxFunction fuel name params body vs s2
                  else
                    (s2, .err ("Expected " ++ toString params.length ++
                      " arguments but got " ++ toString vs.length ++ "."))
              | _ => (s2, .err "Callee is not a golox callable.")
          | (s2, .inl r) => (s2, r)
      | other => other
  | _ + 1, .nilE, s => (s, .panicked)

/-- The argument loop of `VisitCallExpr`: evaluate left to right, aborting
on the first failure. -/
def evalArgs : Nat → List Expr → GState → GState × (Res ⊕ List Value)
  | 0, _, s => (s, .inl .fuelout)
  | _ + 1, [], s => (s, .inr [])
  | fuel + 1, e :: rest, s =>
      match evaluate fuel e s with
      | (s1, .ok v) =>
          match evalArgs fuel rest s1 with
          | (s2, .inr vs) => (s2, .inr (v :: vs))
          | other => other
      | (s1, r) => (s1, .inl r)

/-- `Interpreter.execute` / the `Visit*Stmt` dispatch.  Note
`VisitReturnStmt` merely evaluates its operand and yields it as the
statement's ordinary result — there is no unwinding mechanism. -/
def execute : Nat → Stmt → GState → GState × Res
  | 0, _, s => (s, .fuelout)
  | fuel + 1, .expression e, s => evaluate fuel e s
  | fuel + 1, .print e, s =>
      match evaluate fuel e s with
      | (s1, .ok v) => ({s1 with output := s1.output ++ [v]}, .ok v)
      | other => other
  | fuel + 1, .varDecl name init, s =>
      match init with
      | some e =>
          match evaluate fuel e s with
          | (s1, .ok v) =>
              ({s1 with heap := envDefine s1.environment s1.heap name.lexeme v}, .ok .nil)
          | other => other
      | none =>
          ({s with heap := envDefine s.environment s.heap name.lexeme .nil}, .ok .nil)
  | fuel + 1, .block stmts, s =>
      let p := newEnvironment s.environment s.heap
      executeBlock fuel stmts p.1 {s with heap := p.2}
  | fuel + 1, .ifS c t e, s =>
      match evaluate fuel c s with
      | (s1, .ok v) =>
          if isTruthy v then execute fuel t s1
          else
            match e with
            | some eb => execute fuel eb s1
            | none => (s1, .ok .nil)
      | other => other
  | fuel + 1, .whileS c b, s =>
      match evaluate fuel c s with
      | (s1, .ok v) =>
          if isTruthy v then
            match execute fuel b s1 with
            | (s2, .ok _) => execute fuel (.whileS c b) s2
            | other => other
          else (s1, .ok .nil)
      | other => other
  | _ + 1, .function name params body, s =>
      let h := envDefine s.environment s.heap name.lexeme (.fn s.nextFnId name params body)
      ({s with heap := h, nextFnId := s.nextFnId + 1}, .ok .nil)
  | fuel + 1, .returnS _ value, s =>
      match value with
      | some e => evaluate fuel e s
      | none => (s, .ok .nil)

/-- The statement loop of `ExecuteBlock`: `var res any = nil`, each
statement's result overwrites `res`, a failure returns immediately
(without restoring the environment — that happens in `executeBlock`). -/
def executeSeq : Nat → List Stmt → GState → GState × Res
  | 0, _, s => (s, .fuelout)
  | _ + 1, [], s => (s, .ok .nil)
  | fuel + 1, [st], s => execute fuel st s
  | fuel + 1, st :: rest, s =>
      match execute fuel st s with
      | (s1, .ok _) => executeSeq fuel rest s1
      | other => other

/-- `Interpreter.ExecuteBlock`: save the current environment, swap in
`env`, run the statements; the saved environment is restored only on the
success path — the early `return nil, err` skips the restore. -/
def executeBlock : Nat → List Stmt → EnvRef → GState → GState × Res
  | 0, _, _, s => (s, .fuelout)
  | fuel + 1, stmts, env, s =>
      match executeSeq fuel stmts {s with environment := env} with
      | (s1, .ok v) => ({s1 with environment := s.environment}, .ok v)
      | other => other

/-- `GoloxFunction.Call` (the `(any, error)` revision): a fresh
environment enclosing a copy of the interpreter's `Globals` field — not
the declaration environment — bind the parameters, run the body as a
block, and hand back `ExecuteBlock`'s result unchanged. -/
def callGoloxFunction : Nat → Token → List Token → List Stmt → List Value →
    GState → GState × Res
  | 0, _, _, _, _, s => (s, .fuelout)
  | fuel + 1, _, params, body, args, s =>
      let p := newEnvironment s.globals s.heap
      executeBlock fuel body p.1 {s with heap := bindParams p.1 p.2 (params.zip args)}

end

/-- `Interpreter.Interpret`: execute the statements in order; the first
failure reports the error and terminates the run (`os.Exit(1)`) — the
remaining statements never execute. -/
def interpret (fuel : Nat) : List Stmt → GState → GState × Res
  | [], s => (s, .ok .nil)
  | st :: rest, s =>
      match execute fuel st s with
      | (s1, .ok _) => interpret fuel rest s1
      | other => other

/-- The state `main.run` starts every execution from: one global
`Environment` struct with a nil enclosing pointer and a single map cell
holding the `clock` built-in, stored by value in both the `Environment`
and `Globals` fields of the `Interpreter` (both copies share the map
cell). -/
def initState : GState :=
  { heap := ⟨[], [[("clock".data, .clockNative)]]⟩
    environment := ⟨none, 0⟩
    globals := ⟨none, 0⟩
    output := []
    nextFnId := 0 }

/-! ## Parser (`src/unnamed/part_001`, package `parser`) -/

/-- `parser.Parser`: the token list plus the `Current` cursor. -/
structure PState where
  tokens : List Token
  current : Nat

/-- `Parser.previous`: the token before the cursor. -/
def PState.previous (p : PState) : Token := p.tokens.getD (p.current - 1) default

/-- `Parser.peek`: the token at the cursor. -/
def PState.peek (p : PState) : Token := p.tokens.getD p.current default

/-- `Parser.isAtEnd`: cursor on the `EOF` token. -/
def PState.isAtEnd (p : PState) : Bool :=
  if p.peek.type = .eof then true else false

/-- `Parser.advance`: step the cursor unless at `EOF`, return the token
just passed. -/
def PState.advance (p : PState) : Token × PState :=
  let p' := if p.isAtEnd then p else {p with current := p.current + 1}
  (p'.previous, p')

/-- `Parser.check`: current token has the given type (false at `EOF`). -/
def PState.check (p : PState) (tp : TokenType) : Bool :=
  if p.isAtEnd then false
  else if p.peek.type = tp then true else false

/-- `Parser.match`: try the given types in order, consuming on the first
hit. -/
def pMatch (p : PState) : List TokenType → Bool × PState
  | [] => (false, p)
  | tp :: rest =>
      if p.check tp then (true, (p.advance).2) else pMatch p rest

/-- `Parser.consume`: consume a token of the expected type or fail with
the given message (without consuming). -/
def pConsume (p : PState) (tp : TokenType) (msg : String) :
    PState × Except String Token :=
  if p.check tp then
    let a := p.advance
    (a.2, .ok a.1)
  else (p, .error msg)

/-- The loop of `Parser.synchronize`.  In the Go source the switch's
`case CLASS:` … `case PRINT:` arms have empty bodies (Go cases do not fall
through), so the only keyword that actually stops the scan is `RETURN`;
the other exit is a just-passed `;`. -/
def syncLoop : Nat → PState → PState
  | 0, p => p
  | fuel + 1, p =>
      if p.isAtEnd then p
      else if p.previous.type = .semicolon then p
      else if p.peek.type = .returnTk then p
      else syncLoop fuel (p.advance).2

/-- `Parser.synchronize`: discard one token, then scan forward. -/
def synchronize (p : PState) : PState :=
  syncLoop (p.tokens.length + 1) (p.advance).2

/-- The message a parse function reports when the modelling fuel runs
out; the Go recursion has no such case, and no theorem below relies on a
fuel-starved parse. -/
def fuelMsg : String := "out of parser fuel"

mutual

/-- `Parser.expression`: delegates to assignment. -/
def pExpression : Nat → PState → PState × Except String Expr
  | 0, p => (p, .error fuelMsg)
  | fuel + 1, p => pAssignment fuel p

/-- `Parser.assignment`: parse an lvalue candidate, and after an `=`
recurse; only a `Variable` target builds an `Assign`. -/
def pAssignment : Nat → PState → PState × Except String Expr
  | 0, p => (p, .error fuelMsg)
  | fuel + 1, p =>
      match pOr fuel p with
      | (p1, .error m) => (p1, .error m)
      | (p1, .ok expr) =>
          let m := pMatch p1 [.equal]
          if m.1 then
            match pAssignment fuel m.2 with
            | (p3, .error e) => (p3, .error e)
            | (p3, .ok value) =>
                match expr with
                | .variable name => (p3, .ok (.assign name value))
                | _ => (p3, .error "Invalid assignment target. ")
          else (m.2, .ok expr)

/-- `Parser.or`: as written in the source the loop matches `token.AND`
(not `token.OR`), so an `or` token never matches and the production never
iterates on it. -/
def pOr : Nat → PState → PState × Except String Expr
  | 0, p => (p, .error fuelMsg)
  | fuel + 1, p =>
      match pAnd fuel p with
      | (p1, .error m) => (p1, .error m)
      | (p1, .ok expr) => pOrLoop fuel expr p1

/-- The (buggy) iteration of `Parser.or`: `for p.match(token.AND)`. -/
def pOrLoop : Nat → Expr → PState → PState × Except String Expr
  | 0, _, p => (p, .error fuelMsg)
  | fuel + 1, expr, p =>
      let m := pMatch p [.andTk]
      if m.1 then
        let op := m.2.previous
        match pAnd fuel m.2 with
        | (p3, .error e) => (p3, .error e)
        | (p3, .ok right) => pOrLoop fuel (.logical expr op right) p3
      else (m.2, .ok expr)

/-- `Parser.and`. -/
def pAnd : Nat → PState → PState × Except String Expr
  | 0, p => (p, .error fuelMsg)
  | fuel + 1, p =>
      match pEquality fuel p with
      | (p1, .error m) => (p1, .error m)
      | (p1, .ok expr) => pAndLoop fuel expr p1

/-- The iteration of `Parser.and`: `for p.match(token.AND)`. -/
def pAndLoop : Nat → Expr → PState → PState × Except String Expr
  | 0, _, p => (p, .error fuelMsg)
  | fuel + 1, expr, p =>
      let m := pMatch p [.andTk]
      if m.1 then
        let op := m.2.previous
        match pEquality fuel m.2 with
        | (p3, .error e) => (p3, .error e)
        | (p3, .ok right) => pAndLoop fuel (.logical expr op right) p3
      else (m.2, .ok expr)

/-- `Parser.equality`.  The Go code does not test the error of the first
`comparison()` before entering the loop: the loop runs with a nil `expr`
(`Expr.nilE` here) and the first error is returned only at the end —
callers discard the node, but the extra tokens stay consumed. -/
def pEquality : Nat → PState → PState × Except String Expr
  | 0, p => (p, .error fuelMsg)
  | fuel + 1, p =>
      match pComparison fuel p with
      | (p1, .ok e0) =>
          match pEqLoop fuel e0 p1 with
          | (p2, .ok acc) => (p2, .ok acc)
          | (p2, .error e) => (p2, .error e)
      | (p1, .error m0) =>
          match pEqLoop fuel .nilE p1 with
          | (p2, .ok _) => (p2, .error m0)
          | (p2, .error e) => (p2, .error e)

/-- The iteration of `Parser.equality` over `!=` / `==`. -/
def pEqLoop : Nat → Expr → PState → PState × Except String Expr
  | 0, _, p => (p, .error fuelMsg)
  | fuel + 1, expr, p =>
      let m := pMatch p [.bangEqual, .equalEqual]
      if m.1 then
        let op := m.2.previous
        match pComparison fuel m.2 with
        | (p3, .error e) => (p3, .error e)
        | (p3, .ok right) => pEqLoop fuel (.binary expr op right) p3
      else (m.2, .ok expr)

/-- `Parser.comparison` (same unchecked first error as `equality`). -/
def pComparison : Nat → PState → PState × Except String Expr
  | 0, p => (p, .error fuelMsg)
  | fuel + 1, p =>
      match pTerm fuel p with
      | (p1, .ok e0) =>
          match pCompLoop fuel e0 p1 with
          | (p2, .ok acc) => (p2, .ok acc)
          | (p2, .error e) => (p2, .error e)
      | (p1, .error m0) =>
          match pCompLoop fuel .nilE p1 with
          | (p2, .ok _) => (p2, .error m0)
          | (p2, .error e) => (p2, .error e)

/-- The iteration of `Parser.comparison` over `>` `>=` `<` `<=`. -/
def pCompLoop : Nat → Expr → PState → PState × Except String Expr
  | 0, _, p => (p, .error fuelMsg)
  | fuel + 1, expr, p =>
      let m := pMatch p [.greater, .greaterEqual, .less, .lessEqual]
      if m.1 then
        let op := m.2.previous
        match pTerm fuel m.2 with
        | (p3, .error e) => (p3, .error e)
        | (p3, .ok right) => pCompLoop fuel (.binary expr op right) p3
      else (m.2, .ok expr)

/-- `Parser.term` (same unchecked first error as `equality`). -/
def pTerm : Nat → PState → PState × Except String Expr
  | 0, p => (p, .error fuelMsg)
  | fuel + 1, p =>
      match pFactor fuel p with
      | (p1, .ok e0) =>
          match pTermLoop fuel e0 p1 with
          | (p2, .ok acc) => (p2, .ok acc)
          | (p2, .error e) => (p2, .error e)
      | (p1, .error m0) =>
          match pTermLoop fuel .nilE p1 with
          | (p2, .ok _) => (p2, .error m0)
          | (p2, .error e) => (p2, .error e)

/-- The iteration of `Parser.term` over `+` `-` (in that match order). -/
def pTermLoop : Nat → Expr → PState → PState × Except String Expr
  | 0, _, p => (p, .error fuelMsg)
  | fuel + 1, expr, p =>
      let m := pMatch p [.plus, .minus]
      if m.1 then
        let op := m.2.previous
        match pFactor fuel m.2 with
        | (p3, .error e) => (p3, .error e)
        | (p3, .ok right) => pTermLoop fuel (.binary expr op right) p3
      else (m.2, .ok expr)

/-- `Parser.factor` (this one does check the first error). -/
def pFactor : Nat → PState → PState × Except String Expr
  | 0, p => (p, .error fuelMsg)
  | fuel + 1, p =>
      match pUnary fuel p with
      | (p1, .error m) => (p1, .error m)
      | (p1, .ok expr) => pFactorLoop fuel expr p1

/-- The iteration of `Parser.factor` over `*` `/` (in that match order). -/
def pFactorLoop : Nat → Expr → PState → PState × Except String Expr
  | 0, _, p => (p, .error fuelMsg)
  | fuel + 1, expr, p =>
      let m := pMatch p [.star, .slash]
      if m.1 then
        let op := m.2.previous
        match pUnary fuel m.2 with
        | (p3, .error e) => (p3, .error e)
        | (p3, .ok right) => pFactorLoop fuel (.binary expr op right) p3
      else (m.2, .ok expr)

/-- `Parser.unary`: the Go `for p.match(BANG, MINUS)` returns inside its
first iteration, so it is an `if`; on error the Go code returns the
half-built `Unary` node together with the error — the caller discards the
node, so only the error is propagated here. -/
def pUnary : Nat → PState → PState × Except String Expr
  | 0, p => (p, .error fuelMsg)
  | fuel + 1, p =>
      let m := pMatch p [.bang, .minus]
      if m.1 then
        let op := m.2.previous
        match pUnary fuel m.2 with
        | (p2, .error e) => (p2, .error e)
        | (p2, .ok right) => (p2, .ok (.unary op right))
      else pCall fuel m.2

/-- `Parser.call`: a primary followed by any number of `(...)` suffixes. -/
def pCall : Nat → PState → PState × Except String Expr
  | 0, p => (p, .error fuelMsg)
  | fuel + 1, p =>
      match pPrimary fuel p with
      | (p1, .error m) => (p1, .error m)
      | (p1, .ok expr) => pCallLoop fuel expr p1

/-- The suffix loop of `Parser.call`. -/
def pCallLoop : Nat → Expr → PState → PState × Except String Expr
  | 0, _, p => (p, .error fuelMsg)
  | fuel + 1, expr, p =>
      let m := pMatch p [.leftParen]
      if m.1 then
        match pFinishCall fuel expr m.2 with
        | (p2, .error e) => (p2, .error e)
        | (p2, .ok e2) => pCallLoop fuel e2 p2
      else (m.2, .ok expr)

/-- `Parser.finishCall`.  (The Go `len(arguments) >= 255` test sits right
after `arguments` is initialised empty, so it can never fire and is not
modelled.) -/
def pFinishCall : Nat → Expr → PState → PState × Except String Expr
  | 0, _, p => (p, .error fuelMsg)
  | fuel + 1, callee, p =>
      if p.check .rightParen then
        match pConsume p .rightParen "Expect ')' after arguments." with
        | (p1, .error e) => (p1, .error e)
        | (p1, .ok paren) => (p1, .ok (.call callee paren []))
      else
        match pExpression fuel p with
        | (p1, .error e) => (p1, .error e)
        | (p1, .ok first) =>
            match pArgsLoop fuel [first] p1 with
            | (p2, .error e) => (p2, .error e)
            | (p2, .ok args) =>
                match pConsume p2 .rightParen "Expect ')' after arguments." with
                | (p3, .error e) => (p3, .error e)
                | (p3, .ok paren) => (p3, .ok (.call callee paren args))

/-- The `for p.match(token.COMMA)` argument loop of `finishCall`. -/
def pArgsLoop : Nat → List Expr → PState → PState × Except String (List Expr)
  | 0, _, p => (p, .error fuelMsg)
  | fuel + 1, acc, p =>
      let m := pMatch p [.comma]
      if m.1 then
        match pExpression fuel m.2 with
        | (p1, .error e) => (p1, .error e)
        | (p1, .ok e2) => pArgsLoop fuel (acc ++ [e2]) p1
      else (m.2, .ok acc)

/-- `Parser.primary`.  The final fall-through — reached whenever the
current token matches no alternative — returns `&ast.Binary{}` (an empty
`Binary` node with nil children and a zero operator token) with a nil
error. -/
def pPrimary : Nat → PState → PState × Except String Expr
  | 0, p => (p, .error fuelMsg)
  | fuel + 1, p =>
      let mf := pMatch p [.falseTk]
      if mf.1 then (mf.2, .ok (.litE (.vbool false))) else
      let mt := pMatch mf.2 [.trueTk]
      if mt.1 then (mt.2, .ok (.litE (.vbool true))) else
      let mn := pMatch mt.2 [.nilTk]
      if mn.1 then (mn.2, .ok (.litE .vnil)) else
      let ml := pMatch mn.2 [.number, .stringTk]
      if ml.1 then (ml.2, .ok (.litE ml.2.previous.literal)) else
      let mi := pMatch ml.2 [.identifier]
      if mi.1 then (mi.2, .ok (.variable mi.2.previous)) else
      let mp := pMatch mi.2 [.leftParen]
      if mp.1 then
        match pExpression fuel mp.2 with
        | (p1, .error e) => (p1, .error e)
        | (p1, .ok expr) =>
            match pConsume p1 .rightParen "Expect ')' after expression." with
            | (p2, .error e) => (p2, .error e)
            | (p2, .ok _) => (p2, .ok (.grouping expr))
      else (mp.2, .ok (.binary .nilE Token.zero .nilE))

/-- `Parser.statement`. -/
def pStatement : Nat → PState → PState × Except String Stmt
  | 0, p => (p, .error fuelMsg)
  | fuel + 1, p =>
      let mFor := pMatch p [.forTk]
      if mFor.1 then pForStatement fuel mFor.2 else
      let mIf := pMatch mFor.2 [.ifTk]
      if mIf.1 then pIfStatement fuel mIf.2 else
      let mPr := pMatch mIf.2 [.printTk]
      if mPr.1 then pPrintStatement fuel mPr.2 else
      let mRet := pMatch mPr.2 [.returnTk]
      if mRet.1 then pReturnStatement fuel mRet.2 else
      let mWh := pMatch mRet.2 [.whileTk]
      if mWh.1 then pWhileStatement fuel mWh.2 else
      let mBr := pMatch mWh.2 [.leftBrace]
      if mBr.1 then
        match pBlock fuel mBr.2 with
        | (p1, .error e) => (p1, .error e)
        | (p1, .ok stmts) => (p1, .ok (.block stmts))
      else pExpressionStatement fuel mBr.2

/-- `Parser.block`: declarations until `}` or `EOF`, then consume `}`. -/
def pBlock : Nat → PState → PState × Except String (List Stmt)
  | 0, p => (p, .error fuelMsg)
  | fuel + 1, p => pBlockLoop fuel [] p

/-- The declaration loop of `Parser.block`. -/
def pBlockLoop : Nat → List Stmt → PState → PState × Except String (List Stmt)
  | 0, _, p => (p, .error fuelMsg)
  | fuel + 1, acc, p =>
      if !p.check .rightBrace && !p.isAtEnd then
        match pDeclaration fuel p with
        | (p1, .error e) => (p1, .error e)
        | (p1, .ok st) => pBlockLoop fuel (acc ++ [st]) p1
      else
        match pConsume p .rightBrace "Expect '\x7d' after block." with
        | (p1, .error e) => (p1, .error e)
        | (p1, .ok _) => (p1, .ok acc)

/-- `Parser.printStatement`. -/
def pPrintStatement : Nat → PState → PState × Except String Stmt
  | 0, p => (p, .error fuelMsg)
  | fuel + 1, p =>
      match pExpression fuel p with
      | (p1, .error e) => (p1, .error e)
      | (p1, .ok value) =>
          match pConsume p1 .semicolon "Expect ';' after value." with
          | (p2, .error e) => (p2, .error e)
          | (p2, .ok _) => (p2, .ok (.print value))

/-- `Parser.expressionStatement`. -/
def pExpressionStatement : Nat → PState → PState × Except String Stmt
  | 0, p => (p, .error fuelMsg)
  | fuel + 1, p =>
      match pExpression fuel p with
      | (p1, .error e) => (p1, .error e)
      | (p1, .ok value) =>
          match pConsume p1 .semicolon "Expect ';' after value." with
          | (p2, .error e) => (p2, .error e)
          | (p2, .ok _) => (p2, .ok (.expression value))

/-- `Parser.ifStatement`. -/
def pIfStatement : Nat → PState → PState × Except String Stmt
  | 0, p => (p, .error fuelMsg)
  | fuel + 1, p =>
      match pConsume p .leftParen "Expect '(' after 'if'." with
      | (p1, .error e) => (p1, .error e)
      | (p1, .ok _) =>
          match pExpression fuel p1 with
          | (p2, .error e) => (p2, .error e)
          | (p2, .ok condition) =>
              match pConsume p2 .rightParen "Expect ')' after 'if'." with
              | (p3, .error e) => (p3, .error e)
              | (p3, .ok _) =>
                  match pStatement fuel p3 with
                  | (p4, .error e) => (p4, .error e)
                  | (p4, .ok thenBranch) =>
                      let m := pMatch p4 [.elseTk]
                      if m.1 then
                        match pStatement fuel m.2 with
                        | (p5, .error e) => (p5, .error e)
                        | (p5, .ok elseBranch) =>
                            (p5, .ok (.ifS condition thenBranch (some elseBranch)))
                      else (m.2, .ok (.ifS condition thenBranch none))

/-- `Parser.whileStatement`. -/
def pWhileStatement : Nat → PState → PState × Except String Stmt
  | 0, p => (p, .error fuelMsg)
  | fuel + 1, p =>
      match pConsume p .leftParen "Expect '(' after 'while'." with
      | (p1, .error e) => (p1, .error e)
      | (p1, .ok _) =>
          match pExpression fuel p1 with
          | (p2, .error e) => (p2, .error e)
          | (p2, .ok condition) =>
              match pConsume p2 .rightParen "Expect ')' after condition." with
              | (p3, .error e) => (p3, .error e)
              | (p3, .ok _) =>
                  match pStatement fuel p3 with
                  | (p4, .error e) => (p4, .error e)
                  | (p4, .ok body) => (p4, .ok (.whileS condition body))

/-- `Parser.forStatement`: parse the three clauses and desugar to
`While` wrapped in blocks. -/
def pForStatement : Nat → PState → PState × Except String Stmt
  | 0, p => (p, .error fuelMsg)
  | fuel + 1, p =>
      match pConsume p .leftParen "Expect '(' after 'for'." with
      | (p1, .error e) => (p1, .error e)
      | (p1, .ok _) =>
          match pForInit fuel p1 with
          | (p2, .error e) => (p2, .error e)
          | (p2, .ok initializer) =>
              match pForCond fuel p2 with
              | (p3, .error e) => (p3, .error e)
              | (p3, .ok condition) =>
                  match pForIncr fuel p3 with
                  | (p4, .error e) => (p4, .error e)
                  | (p4, .ok increment) =>
                      match pStatement fuel p4 with
                      | (p5, .error e) => (p5, .error e)
                      | (p5, .ok body) =>
                          let body1 :=
                            match increment with
                            | some inc => Stmt.block [body, .expression inc]
                            | none => body
                          let cond1 :=
                            match condition with
                            | some c => c
                            | none => Expr.litE (.vbool true)
                          let body2 := Stmt.whileS cond1 body1
                          let body3 :=
                            match initializer with
                            | some ini => Stmt.block [ini, body2]
                            | none => body2
                          (p5, .ok body3)

/-- The initializer clause of `Parser.forStatement`. -/
def pForInit : Nat → PState → PState × Except String (Option Stmt)
  | 0, p => (p, .error fuelMsg)
  | fuel + 1, p =>
      let ms := pMatch p [.semicolon]
      if ms.1 then (ms.2, .ok none) else
      let mv := pMatch ms.2 [.varTk]
      if mv.1 then
        match pVarDeclaration fuel mv.2 with
        | (p1, .error e) => (p1, .error e)
        | (p1, .ok st) => (p1, .ok (some st))
      else
        match pExpressionStatement fuel mv.2 with
        | (p1, .error e) => (p1, .error e)
        | (p1, .ok st) => (p1, .ok (some st))

/-- The condition clause of `Parser.forStatement` (note: when the clause
is absent the `;` is not consumed — exactly as in the source). -/
def pForCond : Nat → PState → PState × Except String (Option Expr)
  | 0, p => (p, .error fuelMsg)
  | fuel + 1, p =>
      if !p.check .semicolon then
        match pExpression fuel p with
        | (p1, .error e) => (p1, .error e)
        | (p1, .ok c) =>
            match pConsume p1 .semicolon "Expect ';' after loop condition." with
            | (p2, .error e) => (p2, .error e)
            | (p2, .ok _) => (p2, .ok (some c))
      else (p, .ok none)

/-- The increment clause of `Parser.forStatement`. -/
def pForIncr : Nat → PState → PState × Except String (Option Expr)
  | 0, p => (p, .error fuelMsg)
  | fuel + 1, p =>
      if !p.check .rightParen then
        match pExpression fuel p with
        | (p1, .error e) => (p1, .error e)
        | (p1, .ok c) =>
            match pConsume p1 .rightParen "Expect ')' after for clauses." with
            | (p2, .error e) => (p2, .error e)
            | (p2, .ok _) => (p2, .ok (some c))
      else (p, .ok none)

/-- `Parser.varDeclaration`. -/
def pVarDeclaration : Nat → PState → PState × Except String Stmt
  | 0, p => (p, .error fuelMsg)
  | fuel + 1, p =>
      match pConsume p .identifier "Expect variable name." with
      | (p1, .error e) => (p1, .error e)
      | (p1, .ok name) =>
          let m := pMatch p1 [.equal]
          if m.1 then
            match pExpression fuel m.2 with
            | (p2, .error e) => (p2, .error e)
            | (p2, .ok ini) =>
                match pConsume p2 .semicolon "Expect ';' after variable declaration" with
                | (p3, .error e) => (p3, .error e)
                | (p3, .ok _) => (p3, .ok (.varDecl name (some ini)))
          else
            match pConsume m.2 .semicolon "Expect ';' after variable declaration" with
            | (p3, .error e) => (p3, .error e)
            | (p3, .ok _) => (p3, .ok (.varDecl name none))

/-- `Parser.function` (always called with kind `"function"`; the dead
255-parameter check is not modelled). -/
def pFunction : Nat → PState → PState × Except String Stmt
  | 0, p => (p, .error fuelMsg)
  | fuel + 1, p =>
      match pConsume p .identifier "Expect function name." with
      | (p1, .error e) => (p1, .error e)
      | (p1, .ok name) =>
          match pConsume p1 .leftParen "Expect '(' after function name." with
          | (p2, .error e) => (p2, .error e)
          | (p2, .ok _) =>
              match pParams fuel p2 with
              | (p3, .error e) => (p3, .error e)
              | (p3, .ok params) =>
                  match pConsume p3 .rightParen "Expect ')' after parameters." with
                  | (p4, .error e) => (p4, .error e)
                  | (p4, .ok _) =>
                      match pConsume p4 .leftBrace "Expect '\x7b' before function body." with
                      | (p5, .error e) => (p5, .error e)
                      | (p5, .ok _) =>
                          match pBlock fuel p5 with
                          | (p6, .error e) => (p6, .error e)
                          | (p6, .ok body) => (p6, .ok (.function name params body))

/-- The parameter list of `Parser.function`. -/
def pParams : Nat → PState → PState × Except String (List Token)
  | 0, p => (p, .error fuelMsg)
  | fuel + 1, p =>
      if p.check .rightParen then (p, .ok [])
      else
        match pConsume p .identifier "Expect parameter name." with
        | (p1, .error e) => (p1, .error e)
        | (p1, .ok first) => pParamsLoop fuel [first] p1

/-- The `for p.match(token.COMMA)` loop of the parameter list. -/
def pParamsLoop : Nat → List Token → PState → PState × Except String (List Token)
  | 0, _, p => (p, .error fuelMsg)
  | fuel + 1, acc, p =>
      let m := pMatch p [.comma]
      if m.1 then
        match pConsume m.2 .identifier "Expect parameter name." with
        | (p1, .error e) => (p1, .error e)
        | (p1, .ok tk) => pParamsLoop fuel (acc ++ [tk]) p1
      else (m.2, .ok acc)

/-- `Parser.declaration`. -/
def pDeclaration : Nat → PState → PState × Except String Stmt
  | 0, p => (p, .error fuelMsg)
  | fuel + 1, p =>
      let mf := pMatch p [.funTk]
      if mf.1 then pFunction fuel mf.2 else
      let mv := pMatch mf.2 [.varTk]
      if mv.1 then pVarDeclaration fuel mv.2
      else pStatement fuel mv.2

/-- `Parser.returnStatement` (the `return` keyword was consumed by
`statement`, so `previous` is the keyword). -/
def pReturnStatement : Nat → PState → PState × Except String Stmt
  | 0, p => (p, .error fuelMsg)
  | fuel + 1, p =>
      let keyword := p.previous
      if !p.check .semicolon then
        match pExpression fuel p with
        | (p1, .error e) => (p1, .error e)
        | (p1, .ok value) =>
            match pConsume p1 .semicolon "Expect ';' after return value." with
            | (p2, .error e) => (p2, .error e)
            | (p2, .ok _) => (p2, .ok (.returnS keyword (some value)))
      else
        match pConsume p .semicolon "Expect ';' after return value." with
        | (p2, .error e) => (p2, .error e)
        | (p2, .ok _) => (p2, .ok (.returnS keyword none))

end

/-- The accumulating loop of `Parser.Parse`: the `statement` variable is
appended to the result list whether or not `declaration` failed — a
failed declaration appends Go's nil (`none` here) after synchronizing and
setting the error flag. -/
def parseLoop : Nat → PState → List (Option Stmt) → Bool → List (Option Stmt) × Bool
  | 0, _, acc, isError => (acc, isError)
  | fuel + 1, p, acc, isError =>
      if p.isAtEnd then (acc, isError)
      else
        match pDeclaration fuel p with
        | (p1, .ok st) => parseLoop fuel p1 (acc ++ [some st]) isError
        | (p1, .error _) => parseLoop fuel (synchronize p1) (acc ++ [none]) true

/-- `Parser.Parse`: returns the accumulated statements (Go nils included)
and the error flag. -/
def parseTokens (fuel : Nat) (tokens : List Token) : List (Option Stmt) × Bool :=
  parseLoop fuel ⟨tokens, 0⟩ [] false

/-! ## Scanner (`src/unnamed/part_001`, package `scanner`) -/

/-- `scanner.Scanner`: `Start`/`Current`/`Line` cursors, the source
(byte-by-byte; modelled as a character list), and the tokens emitted so
far. -/
structure ScanState where
  start : Nat
  current : Nat
  line : Nat
  source : List Char
  tokens : List Token

/-- `Scanner.isAtEnd`. -/
def ScanState.isAtEnd (s : ScanState) : Bool :=
  if s.source.length ≤ s.current then true else false

/-- `Scanner.peek`: the current character, or `none` for the
end-of-source sentinel (the Go code returns the two-character string
`"\\0"`, which compares unequal to every single character and is neither
a digit nor a letter — `none` behaves identically at every use site). -/
def ScanState.peekCh (s : ScanState) : Option Char := s.source.get? s.current

/-- `Scanner.peekNext`. -/
def ScanState.peekNextCh (s : ScanState) : Option Char := s.source.get? (s.current + 1)

/-- `Scanner.advance`: read the current character and step past it. -/
def ScanState.advanceCh (s : ScanState) : Char × ScanState :=
  (s.source.getD s.current default, {s with current := s.current + 1})

/-- `Scanner.match`. -/
def matchCh (s : ScanState) (expected : Char) : Bool × ScanState :=
  if s.isAtEnd then (false, s)
  else if s.source.getD s.current default = expected then
    (true, {s with current := s.current + 1})
  else (false, s)

/-- `scanner.isDigit` on a single character. -/
def isDigitCh (c : Char) : Bool :=
  if '0' ≤ c ∧ c ≤ '9' then true else false

/-- `scanner.isAlpha` on a single character. -/
def isAlphaCh (c : Char) : Bool :=
  if ('a' ≤ c ∧ c ≤ 'z') ∨ ('A' ≤ c ∧ c ≤ 'Z') ∨ c = '_' then true else false

/-- `scanner.isDigit` applied to `peek`'s result (the `"\\0"` sentinel is
not a digit). -/
def isDigitOpt : Option Char → Bool
  | some c => isDigitCh c
  | none => false

/-- `scanner.isAlphaNumeric` applied to `peek`'s result. -/
def isAlphaNumericOpt : Option Char → Bool
  | some c => isAlphaCh c || isDigitCh c
  | none => false

/-- `Scanner.addToken`: append a token whose lexeme is
`Source[Start:Current]` at the current line. -/
def addToken (s : ScanState) (tp : TokenType) (lit : LitVal) : ScanState :=
  {s with tokens := s.tokens ++ [⟨tp, (s.source.take s.current).drop s.start, lit, s.line⟩]}

/-- The `keywords` map of package `scanner`; a miss is Go's zero value
`""`, which the caller replaces with `IDENTIFIER`. -/
def keywordLookup (text : List Char) : Option TokenType :=
  if text = "and".data then some .andTk
  else if text = "class".data then some .classTk
  else if text = "else".data then some .elseTk
  else if text = "false".data then some .falseTk
  else if text = "for".data then some .forTk
  else if text = "fun".data then some .funTk
  else if text = "if".data then some .ifTk
  else if text = "nil".data then some .nilTk
  else if text = "or".data then some .orTk
  else if text = "print".data then some .printTk
  else if text = "return".data then some .returnTk
  else if text = "super".data then some .superTk
  else if text = "this".data then some .thisTk
  else if text = "true".data then some .trueTk
  else if text = "var".data then some .varTk
  else if text = "while".data then some .whileTk
  else none

/-- The scan loop of `Scanner.string`: consume characters up to the
closing quote (or the end of the source), counting embedded newlines.
The fuel is the number of unread characters, which the loop consumes one
per iteration, so it never runs dry before the loop's own exit tests. -/
def stringLoop : Nat → ScanState → ScanState
  | 0, s => s
  | fuel + 1, s =>
      match s.peekCh with
      | none => s
      | some c =>
          if c = '"' then s
          else
            let s1 := if c = '\n' then {s with line := s.line + 1} else s
            stringLoop fuel (s1.advanceCh).2

/-- `Scanner.string`: body after the opening quote.  An unterminated
string reports a diagnostic and emits no token; otherwise the literal is
the text between the quotes. -/
def scanString (s : ScanState) : ScanState :=
  let s1 := stringLoop (s.source.length - s.current) s
  if s1.isAtEnd then s1
  else
    let s2 := (s1.advanceCh).2
    addToken s2 .stringTk (.vstr ((s2.source.take (s2.current - 1)).drop (s2.start + 1)))

/-- The digit-consuming loop of `Scanner.number`. -/
def numberLoop : Nat → ScanState → ScanState
  | 0, s => s
  | fuel + 1, s =>
      if isDigitOpt s.peekCh then numberLoop fuel ((s.advanceCh).2)
      else s

/-- Decimal digits to a natural number. -/
def digitsToNat : List Char → Nat → Nat
  | [], acc => acc
  | c :: rest, acc => digitsToNat rest (acc * 10 + (c.toNat - 48))

/-- `strconv.ParseFloat` on the scanned digit string, modelled exactly
(the Go code rounds to the nearest `float64`; no theorem below depends on
a literal needing rounding). -/
def parseNumber (cs : List Char) : ℚ :=
  let intPart := cs.takeWhile (fun c => !(c = '.'))
  let fracPart := (cs.dropWhile (fun c => !(c = '.'))).drop 1
  (digitsToNat intPart 0 : ℚ) + (digitsToNat fracPart 0 : ℚ) / ((10 : ℚ) ^ fracPart.length)

/-- `Scanner.number`: integer digits, then a fractional part only when a
`.` is followed by another digit. -/
def scanNumber (s : ScanState) : ScanState :=
  let s1 := numberLoop (s.source.length - s.current) s
  let s2 :=
    if s1.peekCh = some '.' ∧ isDigitOpt s1.peekNextCh then
      numberLoop (s1.source.length - (s1.current + 1)) ((s1.advanceCh).2)
    else s1
  addToken s2 .number (.vnum (.fin (parseNumber ((s2.source.take s2.current).drop s2.start))))

/-- The alphanumeric loop of `Scanner.identifier`. -/
def identLoop : Nat → ScanState → ScanState
  | 0, s => s
  | fuel + 1, s =>
      if isAlphaNumericOpt s.peekCh then identLoop fuel ((s.advanceCh).2)
      else s

/-- `Scanner.identifier`: consume the word, then emit the keyword's kind
or `IDENTIFIER`; the literal is the lexeme text. -/
def scanIdentifier (s : ScanState) : ScanState :=
  let s1 := identLoop (s.source.length - s.current) s
  let text := (s1.source.take s1.current).drop s1.start
  addToken s1 ((keywordLookup text).getD .identifier) (.vstr text)

/-- The `//`-comment loop of `scanToken`: consume to (not including) the
next newline. -/
def commentLoop : Nat → ScanState → ScanState
  | 0, s => s
  | fuel + 1, s =>
      match s.peekCh with
      | none => s
      | some c =>
          if c = '\n' then s
          else commentLoop fuel ((s.advanceCh).2)

/-- `Scanner.scanToken`: read one character and dispatch.  Whitespace and
comments emit nothing; an unexpected character reports a diagnostic and
emits nothing. -/
def scanToken (s : ScanState) : ScanState :=
  let a := s.advanceCh
  let c := a.1
  let s1 := a.2
  if c = '(' then addToken s1 .leftParen (.vstr "(".data)
  else if c = ')' then addToken s1 .rightParen (.vstr ")".data)
  else if c = '{' then addToken s1 .leftBrace (.vstr "\x7b".data)
  else if c = '}' then addToken s1 .rightBrace (.vstr "\x7d".data)
  else if c = ',' then addToken s1 .comma (.vstr ",".data)
  else if c = '.' then addToken s1 .dot (.vstr ".".data)
  else if c = '-' then addToken s1 .minus (.vstr "-".data)
  else if c = '+' then addToken s1 .plus (.vstr "+".data)
  else if c = ';' then addToken s1 .semicolon (.vstr ";".data)
  else if c = '*' then addToken s1 .star (.vstr "*".data)
  else if c = '!' then
    let m := matchCh s1 '='
    if m.1 then addToken m.2 .bangEqual (.vstr "!=".data)
    else addToken m.2 .bang (.vstr "!".data)
  else if c = '=' then
    let m := matchCh s1 '='
    if m.1 then addToken m.2 .equalEqual (.vstr "==".data)
    else addToken m.2 .equal (.vstr "=".data)
  else if c = '<' then
    let m := matchCh s1 '='
    if m.1 then addToken m.2 .lessEqual (.vstr "<=".data)
    else addToken m.2 .less (.vstr "<".data)
  else if c = '>' then
    let m := matchCh s1 '='
    if m.1 then addToken m.2 .greaterEqual (.vstr ">=".data)
    else addToken m.2 .greater (.vstr ">".data)
  else if c = '/' then
    let m := matchCh s1 '/'
    if m.1 then commentLoop (m.2.source.length - m.2.current) m.2
    else addToken m.2 .slash (.vstr "/".data)
  else if c = ' ' then s1
  else if c = '\r' then s1
  else if c = '\t' then s1
  else if c = '\n' then {s1 with line := s1.line + 1}
  else if c = '"' then scanString s1
  else if isDigitCh c then scanNumber s1
  else if isAlphaCh c then scanIdentifier s1
  else s1

/-- The outer loop of `Scanner.ScanTokens`: while not at the end, set
`Start := Current` and scan one token.  Every `scanToken` consumes at
least one character, so `source.length` iterations suffice. -/
def scanLoop : Nat → ScanState → ScanState
  | 0, s => s
  | fuel + 1, s =>
      if s.isAtEnd then s
      else scanLoop fuel (scanToken {s with start := s.current})

/-- `Scanner.ScanTokens` composed with `scanner.New`: scan the whole
source and append the single `EOF` token at the final line. -/
def scanTokens (source : List Char) : List Token :=
  let st := scanLoop source.length ⟨0, 0, 1, source, []⟩
  st.tokens ++ [⟨.eof, [], .vnil, st.line⟩]

/-! ## Auxiliary notions used by the theorems -/

/-- The map cells visited by an `envGet`/`envAssign` walk of at most
`fuel` steps from `e`: the frame's own cell, then the cells along the
`enclosing` pointers. -/
def envChainValues (h : Heap) : EnvRef → Nat → List Nat
  | _, 0 => []
  | e, fuel + 1 =>
      e.values ::
        (match e.enclosing with
         | some a =>
             (match h.envCells.get? a with
              | some e2 => envChainValues h e2 fuel
              | none => [])
         | none => [])

/-- Newlines in `src` strictly between positions `a` and `b`. -/
def countNL (src : List Char) (a b : Nat) : Nat :=
  ((src.drop a).take (b - a)).count '\n'

/-- The bookkeeping every scanner step obeys, from state `s` to state
`s'`: the source is untouched, the cursor only moves forward, the line
counter advances by exactly the newlines of the consumed range, and
tokens are only appended — none of them an `EOF`. -/
def ScanOk (s s' : ScanState) : Prop :=
  s'.source = s.source ∧
  s.current ≤ s'.current ∧
  s'.line = s.line + countNL s.source s.current s'.current ∧
  ∃ ts, s'.tokens = s.tokens ++ ts ∧ ∀ t ∈ ts, t.type ≠ TokenType.eof

/-! ## Concrete inputs used by the theorems -/

/-- An identifier token as the scanner emits it on line 1. -/
def identTok (s : String) : Token := ⟨.identifier, s.data, .vstr s.data, 1⟩

/-- The `return` keyword token as the scanner emits it on line 1. -/
def retTok : Token := ⟨.returnTk, "return".data, .vstr "return".data, 1⟩

/-- `fun f() { return 1; print 2; } print f();` as statement trees. -/
def c1prog : List Stmt :=
  [ .function (identTok "f") []
      [ .returnS retTok (some (.litE (.vnum (.fin 1)))),
        .print (.litE (.vnum (.fin 2))) ],
    .print (.call (.variable (identTok "f")) Token.zero []) ]

/-- `{ x; }` — a block whose single statement reads an undefined
variable, so it fails with a runtime error. -/
def c2stmt : Stmt := .block [.expression (.variable (identTok "x"))]

/-- `{ var a = 5; fun f() { print a; } f(); }` — `a` lives only in the
block environment the function is declared in. -/
def c3progLocalOnly : List Stmt :=
  [ .block
      [ .varDecl (identTok "a") (some (.litE (.vnum (.fin 5)))),
        .function (identTok "f") [] [.print (.variable (identTok "a"))],
        .expression (.call (.variable (identTok "f")) Token.zero []) ] ]

/-- `var a = 1; { var a = 5; fun f() { print a; } f(); }` — a global `a`
shadowed by a block-local `a` at the function's declaration site. -/
def c3progShadow : List Stmt :=
  [ .varDecl (identTok "a") (some (.litE (.vnum (.fin 1)))),
    .block
      [ .varDecl (identTok "a") (some (.litE (.vnum (.fin 5)))),
        .function (identTok "f") [] [.print (.variable (identTok "a"))],
        .expression (.call (.variable (identTok "f")) Token.zero []) ] ]

/-- `x = 1; print 99;` with `x` never declared. -/
def c4prog : List Stmt :=
  [ .expression (.assign (identTok "x") (.litE (.vnum (.fin 1)))),
    .print (.litE (.vnum (.fin 99))) ]

/-- `print 0/0 == 0/0;` as a statement tree. -/
def c7prog : List Stmt :=
  [ .print
      (.binary
        (.binary (.litE (.vnum (.fin 0))) ⟨.slash, "/".data, .vstr "/".data, 1⟩
          (.litE (.vnum (.fin 0))))
        ⟨.equalEqual, "==".data, .vstr "==".data, 1⟩
        (.binary (.litE (.vnum (.fin 0))) ⟨.slash, "/".data, .vstr "/".data, 1⟩
          (.litE (.vnum (.fin 0))))) ]

/-- A state whose current (and global) frame owns `x`: used to
instantiate the block-assignment theorem. -/
def c10state : GState :=
  { heap := ⟨[], [[("x".data, .num (.fin 0))]]⟩
    environment := ⟨none, 0⟩
    globals := ⟨none, 0⟩
    output := []
    nextFnId := 0 }

/-! ## Theorems -/

/-- C1: the spec requires `Return` to unwind every enclosing
`Block`/`If`/`While` up to the function-call frame, the call yielding the
returned value (`nil` on fall-through).  The code has no unwinding
mechanism: `VisitReturnStmt` yields the value as an ordinary statement
result, `ExecuteBlock` keeps executing the remaining statements and
returns the *last* statement's result.  Running
`fun f() { return 1; print 2; } print f();` therefore prints `2` twice —
the statement after `return` executes, and the call yields `2`, not `1`. -/
theorem c1_return_does_not_unwind :
    (interpret 30 c1prog initState).1.output =
      [Value.num (.fin 2), Value.num (.fin 2)] ∧
    (interpret 30 c1prog initState).2 = Res.ok Value.nil :=
  ⟨rfl, rfl⟩

/-- C2 counterexample: executing the block `{ x; }` (whose statement
fails with an undefined-variable error) leaves the interpreter's current
environment set to the block environment — `ExecuteBlock`'s
`return nil, err` skips the restore — refuting restoration "on every exit
path". -/
theorem c2_error_exit_keeps_block_env :
    (execute 5 c2stmt initState).2 = Res.err "Undefined variable x." ∧
    (execute 5 c2stmt initState).1.environment ≠ initState.environment :=
  ⟨rfl, by decide⟩

/-- C2 amended: on the success path `ExecuteBlock` does restore the
previous environment: whenever executing a `Block` statement returns
`ok`, the resulting environment reference equals the one before entry
(and `Return` creates no early exit, so normal completion is the only
non-error path). -/
theorem c2_block_restores_env_on_success (fuel : Nat) (ss : List Stmt)
    (s s' : GState) (v : Value)
    (h : execute fuel (Stmt.block ss) s = (s', .ok v)) :
    s'.environment = s.environment := by
  match fuel with
  | 0 => simp [execute] at h
  | fuel + 1 =>
    simp only [execute] at h
    match fuel with
    | 0 => simp [executeBlock] at h
    | fuel + 1 =>
      simp only [executeBlock] at h
      split at h
      · cases h
        rfl
      · rename_i hne
        exact (hne s' v h).elim

/-- Witness for the C2 theorem at a concrete block and state. -/
theorem c2_witness :
    (execute 5 (Stmt.block []) initState).1.environment = initState.environment :=
  c2_block_restores_env_on_success 5 [] initState
    (execute 5 (Stmt.block []) initState).1 Value.nil rfl

/-- C3 counterexample: a function declared inside a block does *not*
capture the block environment.  In `{ var a = 5; fun f() { print a; }
f(); }` the call fails with an undefined-variable error instead of
printing `5`; with a global `a = 1` shadowed by the block-local `a = 5`,
the call prints the *global* `1`. -/
theorem c3_counterexample_no_lexical_capture :
    (interpret 30 c3progLocalOnly initState).2 = Res.err "Undefined variable a." ∧
    (interpret 30 c3progShadow initState).1.output = [Value.num (.fin 1)] :=
  ⟨rfl, rfl⟩

/-- `ExecuteBlock`'s observable effects (result, output, heap) do not
depend on the interpreter's current environment: the loop starts from a
state whose environment has been overwritten with the block environment,
and the saved `previous` is only written back into the (unobserved)
environment field on success. -/
theorem executeBlock_env_independent (fuel : Nat) (body : List Stmt)
    (env : EnvRef) (s : GState) (E : EnvRef) :
    (executeBlock fuel body env {s with environment := E}).2 =
        (executeBlock fuel body env s).2 ∧
      (executeBlock fuel body env {s with environment := E}).1.output =
        (executeBlock fuel body env s).1.output ∧
      (executeBlock fuel body env {s with environment := E}).1.heap =
        (executeBlock fuel body env s).1.heap := by
  match fuel with
  | 0 => exact ⟨rfl, rfl, rfl⟩
  | fuel + 1 =>
    simp only [executeBlock]
    have hstate : ({ {s with environment := E} with environment := env} : GState) =
        {s with environment := env} := rfl
    rw [hstate]
    rcases hseq : executeSeq fuel body {s with environment := env} with ⟨s1, r⟩
    cases r <;> simp

/-- C3 amended: a `GoloxFunction` value stores only its declaration, and
`GoloxFunction.Call` builds the call frame on a copy of the interpreter's
`Globals` field, so the call's result, printed output and heap effects
are identical whatever environment is current at the call site — the
body cannot read variables local to the declaration environment, only the
globals chain (the concrete counterexample exhibits both sides). -/
theorem c3_call_ignores_current_environment (fuel : Nat) (name : Token)
    (params : List Token) (body : List Stmt) (args : List Value)
    (s : GState) (E : EnvRef) :
    (callGoloxFunction fuel name params body args {s with environment := E}).2 =
        (callGoloxFunction fuel name params body args s).2 ∧
      (callGoloxFunction fuel name params body args {s with environment := E}).1.output =
        (callGoloxFunction fuel name params body args s).1.output ∧
      (callGoloxFunction fuel name params body args {s with environment := E}).1.heap =
        (callGoloxFunction fuel name params body args s).1.heap := by
  match fuel with
  | 0 => exact ⟨rfl, rfl, rfl⟩
  | fuel + 1 =>
    simp only [callGoloxFunction]
    exact executeBlock_env_independent fuel body (newEnvironment s.globals s.heap).1
      {s with heap := bindParams (newEnvironment s.globals s.heap).1 (newEnvironment s.globals s.heap).2 (params.zip args)} E

/-- When no frame along the walk owns the name, `Environment.Get`
reports the undefined-variable error (`none` here). -/
theorem envGet_none_of_chain (fuel : Nat) :
    ∀ (h : Heap) (e : EnvRef) (k : List Char),
    (∀ mid ∈ envChainValues h e fuel, mapGet (h.mapCells.getD mid []) k = none) →
    envGet h e k fuel = none := by
  induction fuel with
  | zero => intro h e k _; rfl
  | succ f ih =>
    intro h e k H
    have h0 : mapGet (h.mapCells.getD e.values []) k = none := by
      refine H e.values ?_
      simp [envChainValues]
    simp only [envGet, h0]
    cases he : e.enclosing with
    | none => rfl
    | some a =>
      cases hc : h.envCells[a]? with
      | none => simp [hc]
      | some e2 =>
        simp only [List.get?_eq_getElem?, hc]
        refine ih h e2 k ?_
        intro mid hm
        refine H mid ?_
        simp [envChainValues, he, List.get?_eq_getElem?, hc]
        exact Or.inr hm

/-- When no frame along the walk owns the name, `Environment.assign`
leaves the heap untouched (it only prints a diagnostic). -/
theorem envAssign_id_of_chain (fuel : Nat) :
    ∀ (h : Heap) (e : EnvRef) (k : List Char) (v : Value),
    (∀ mid ∈ envChainValues h e fuel, mapGet (h.mapCells.getD mid []) k = none) →
    envAssign h e k v fuel = h := by
  induction fuel with
  | zero => intro h e k v _; rfl
  | succ f ih =>
    intro h e k v H
    have h0 : mapGet (h.mapCells.getD e.values []) k = none := by
      refine H e.values ?_
      simp [envChainValues]
    simp only [envAssign, h0, Option.isSome_none, Bool.false_eq_true, if_false]
    cases he : e.enclosing with
    | none => rfl
    | some a =>
      cases hc : h.envCells[a]? with
      | none => simp [hc]
      | some e2 =>
        simp only [List.get?_eq_getElem?, hc]
        refine ih h e2 k v ?_
        intro mid hm
        refine H mid ?_
        simp [envChainValues, he, List.get?_eq_getElem?, hc]
        exact Or.inr hm

/-- C4 counterexample: `x = 1; print 99;` with `x` undefined everywhere
runs to completion with no error — the assignment silently performs no
write (the Go code prints a diagnostic and returns), `99` is printed, and
`x` is still unbound afterwards.  The claim requires the assignment to
raise a runtime error that terminates the run. -/
theorem c4_assign_to_undefined_is_not_an_error :
    (interpret 30 c4prog initState).2 = Res.ok Value.nil ∧
    (interpret 30 c4prog initState).1.output = [Value.num (.fin 99)] ∧
    envGet (interpret 30 c4prog initState).1.heap
      (interpret 30 c4prog initState).1.environment "x".data 2 = none :=
  ⟨rfl, rfl, rfl⟩

/-- C4 amended: reading a name owned by no frame of the chain is a
runtime error that terminates the run (the remaining statements never
execute), but *assigning* such a name is not an error: the expression
yields the assigned value, the state — heap included — is unchanged, and
execution continues. -/
theorem c4_undefined_read_errs_write_is_silent :
    (∀ (fuel : Nat) (x : Token) (rest : List Stmt) (s : GState),
      (∀ mid ∈ envChainValues s.heap s.environment (s.heap.envCells.length + 1),
        mapGet (s.heap.mapCells.getD mid []) x.lexeme = none) →
      interpret (fuel + 2) (Stmt.expression (Expr.variable x) :: rest) s =
        (s, Res.err ("Undefined variable " ++ String.mk x.lexeme ++ "."))) ∧
    (∀ (fuel : Nat) (x : Token) (lit : LitVal) (s : GState),
      (∀ mid ∈ envChainValues s.heap s.environment (s.heap.envCells.length + 1),
        mapGet (s.heap.mapCells.getD mid []) x.lexeme = none) →
      evaluate (fuel + 2) (Expr.assign x (Expr.litE lit)) s =
        (s, Res.ok (litToValue lit))) := by
  constructor
  · intro fuel x rest s H
    have hg : envGet s.heap s.environment x.lexeme (s.heap.envCells.length + 1) = none :=
      envGet_none_of_chain _ _ _ _ H
    simp [interpret, execute, evaluate, hg]
  · intro fuel x lit s H
    have ha : envAssign s.heap s.environment x.lexeme (litToValue lit)
        (s.heap.envCells.length + 1) = s.heap :=
      envAssign_id_of_chain _ _ _ _ _ H
    simp [evaluate, ha]

/-- Witness for the C4 theorem: in the initial state (`x` never
defined), the read terminates the run with the error and the assignment
is an accepted no-op. -/
theorem c4_witness :
    interpret 2 [Stmt.expression (Expr.variable (identTok "x"))] initState =
      (initState, Res.err ("Undefined variable " ++ String.mk "x".data ++ ".")) ∧
    evaluate 2 (Expr.assign (identTok "x") (Expr.litE .vnil)) initState =
      (initState, Res.ok Value.nil) := by
  have hchain : ∀ mid ∈ envChainValues initState.heap initState.environment
      (initState.heap.envCells.length + 1),
      mapGet (initState.heap.mapCells.getD mid []) (identTok "x").lexeme = none := by
    have hl : envChainValues initState.heap initState.environment
        (initState.heap.envCells.length + 1) = [0] := rfl
    rw [hl]
    intro mid hm
    simp at hm
    subst hm
    rfl
  exact ⟨c4_undefined_read_errs_write_is_silent.1 0 (identTok "x") [] initState hchain,
    c4_undefined_read_errs_write_is_silent.2 0 (identTok "x") .vnil initState hchain⟩

/-- C5: `Parser.or` iterates on `token.AND`, not `token.OR`.  On the
token stream of `a or b;` the production returns the bare left operand
`Variable a` with the `or` token *unconsumed* (cursor still at index 1) —
no `Logical` node with an `OR` operator is ever built — and the statement
then fails with `Expect ';' after value.`, so `Parse` yields one nil
statement and the error flag. -/
theorem c5_or_production_never_consumes_or :
    pOr 40 ⟨scanTokens "a or b;".data, 0⟩ =
      (⟨scanTokens "a or b;".data, 1⟩, Except.ok (Expr.variable (identTok "a"))) ∧
    parseTokens 50 (scanTokens "a or b;".data) = ([none], true) :=
  ⟨rfl, rfl⟩

/-- `Parse`'s loop invariant: the error flag is set exactly when a nil
statement has been appended. -/
theorem parseLoop_flag_iff (fuel : Nat) :
    ∀ (p : PState) (acc : List (Option Stmt)) (b : Bool),
    (b = true ↔ none ∈ acc) →
    ((parseLoop fuel p acc b).2 = true ↔ none ∈ (parseLoop fuel p acc b).1) := by
  induction fuel with
  | zero => intro p acc b hb; simpa [parseLoop] using hb
  | succ f ih =>
    intro p acc b hb
    simp only [parseLoop]
    cases hAtEnd : p.isAtEnd with
    | true => simpa [hAtEnd] using hb
    | false =>
      simp only [hAtEnd, Bool.false_eq_true, if_false]
      rcases hd : pDeclaration f p with ⟨p1, r⟩
      cases r with
      | ok st =>
        refine ih p1 (acc ++ [some st]) b ?_
        simpa using hb
      | error e =>
        refine ih (synchronize p1) (acc ++ [none]) true ?_
        simp

/-- C6 amended: `Parse` returns `errored = true` iff at least one
declaration failed — equivalently, iff the returned statement list
contains a Go-nil statement, because the loop appends the nil
`statement` value of a failed declaration instead of skipping it. -/
theorem c6_errored_iff_nil_statement (fuel : Nat) (tokens : List Token) :
    (parseTokens fuel tokens).2 = true ↔ none ∈ (parseTokens fuel tokens).1 :=
  parseLoop_flag_iff fuel ⟨tokens, 0⟩ [] false (by simp)

/-- C6 counterexample: parsing `var ;` reports an error and the returned
statement list is `[nil]` — a nil statement *does* appear in the list,
refuting "no nil or partial statement nodes appear". -/
theorem c6_nil_statement_in_result :
    parseTokens 50 (scanTokens "var ;".data) = ([none], true) :=
  rfl

/-- C7 counterexample: `0/0` is IEEE `NaN` and Go `==` on `NaN` is
false, so `print 0/0 == 0/0;` prints `false`: `v == v` fails for the
`NaN` number value (`isEqual` is not reflexive there). -/
theorem c7_nan_not_reflexive :
    (interpret 30 c7prog initState).1.output = [Value.bool false] ∧
    isEqual (.num .nan) (.num .nan) = false :=
  ⟨rfl, rfl⟩

/-- C7 amended: `v == v` holds for every runtime value except the `NaN`
number, and `nil == x` holds exactly when `x` is nil. -/
theorem c7_equality_laws :
    (∀ v : Value, v ≠ Value.num FloatVal.nan → isEqual v v = true) ∧
    (∀ v : Value, (isEqual Value.nil v = true ↔ v = Value.nil)) := by
  constructor
  · intro v hv
    match v with
    | .nil => rfl
    | .bool b => simp [isEqual, valueEq]
    | .num f =>
      match f with
      | .fin q => simp [isEqual, valueEq, FloatVal.feq]
      | .inf => rfl
      | .ninf => rfl
      | .nan => exact absurd rfl hv
    | .str cs => simp [isEqual, valueEq]
    | .fn i n ps b => simp [isEqual, valueEq]
    | .clockNative => rfl
  · intro v
    match v with
    | .nil => simp [isEqual]
    | .bool b => simp [isEqual]
    | .num f => simp [isEqual]
    | .str cs => simp [isEqual]
    | .fn i n ps b => simp [isEqual]
    | .clockNative => simp [isEqual]

/-- Witness for the C7 theorem at concrete values. -/
theorem c7_witness :
    isEqual (Value.bool true) (Value.bool true) = true ∧
    (isEqual Value.nil Value.nil = true ↔ (Value.nil = Value.nil)) :=
  ⟨c7_equality_laws.1 (Value.bool true) (by simp), c7_equality_laws.2 Value.nil⟩

/-- C9: on a token stream whose expression position starts with a token
matching no `primary` alternative (a lone `;`), `primary` falls through
to `&ast.Binary{}`: `Parse` reports *no* error and returns an expression
statement holding an empty `Binary` node with nil children, and
evaluating that node dereferences the nil left child — a runtime panic,
not a total evaluation. -/
theorem c9_empty_binary_node_panics :
    parseTokens 50 (scanTokens ";".data) =
      ([some (.expression (.binary .nilE Token.zero .nilE))], false) ∧
    (interpret 30 [Stmt.expression (Expr.binary Expr.nilE Token.zero Expr.nilE)]
        initState).2 = Res.panicked :=
  ⟨rfl, rfl⟩

/-- Updating a map cell makes the written binding visible to lookup. -/
theorem mapGet_mapSet_self (cell : List (List Char × Value)) (k : List Char) (v : Value) :
    mapGet (mapSet cell k v) k = some v := by
  induction cell with
  | nil => simp [mapSet, mapGet]
  | cons hd tl ih =>
    obtain ⟨k', v'⟩ := hd
    by_cases hk : k' = k
    · simp [mapSet, hk, mapGet]
    · simp [mapSet, hk, mapGet, ih]

/-- The chained-assign walk from a fresh block frame: the block's own map
cell is empty, so `assign` follows the enclosing pointer to the heap copy
of the outer frame and mutates the *shared* map cell of a name that frame
owns. -/
theorem envAssign_through_fresh_frame (h : Heap) (e : EnvRef) (k : List Char) (v : Value)
    (hvlt : e.values < h.mapCells.length)
    (hsome : (mapGet (h.mapCells.getD e.values []) k).isSome = true) :
    envAssign ⟨h.envCells ++ [e], h.mapCells ++ [[]]⟩
        ⟨some h.envCells.length, h.mapCells.length⟩ k v (h.envCells.length + 1 + 1) =
      ⟨h.envCells ++ [e],
        (h.mapCells ++ [[]]).set e.values (mapSet (h.mapCells.getD e.values []) k v)⟩ := by
  have htop : mapGet ((h.mapCells ++ [[]]).getD h.mapCells.length []) k = none := by
    rw [List.getD_append_right _ _ _ _ (le_refl _)]
    simp [mapGet]
  have hcell : (h.mapCells ++ [[]]).getD e.values [] = h.mapCells.getD e.values [] :=
    List.getD_append _ _ _ _ hvlt
  have henv : (h.envCells ++ [e]).get? h.envCells.length = some e := by
    rw [List.get?_eq_getElem?]
    exact List.getElem?_concat_length _ _
  simp only [envAssign, htop, Option.isSome_none, Bool.false_eq_true, if_false, henv]
  simp only [envAssign, hcell, hsome, if_true]

/-- C10: an assignment inside a block to a name owned by the enclosing
frame is visible after the block exits and the previous environment is
restored — although `NewEnvironment` stores a pointer to a by-value copy
of the enclosing `Environment` struct, that copy shares the name-to-value
map cell with the original, so the chained `assign` mutates the binding
observed outside.  Executing `{ x = lit; }` from any state whose current
frame owns `x` succeeds, restores the environment reference, and a
subsequent `Get` of `x` in the restored environment sees the new value. -/
theorem c10_block_assignment_mutates_enclosing_frame
    (fuel : Nat) (x : Token) (lit : LitVal) (s : GState) (w : Value)
    (hown : mapGet (s.heap.mapCells.getD s.environment.values []) x.lexeme = some w) :
    (execute (fuel + 6) (Stmt.block [Stmt.expression (Expr.assign x (Expr.litE lit))]) s).2 =
        Res.ok (litToValue lit) ∧
      (execute (fuel + 6) (Stmt.block [Stmt.expression (Expr.assign x (Expr.litE lit))]) s).1.environment =
        s.environment ∧
      envGet (execute (fuel + 6) (Stmt.block [Stmt.expression (Expr.assign x (Expr.litE lit))]) s).1.heap
        s.environment x.lexeme 1 = some (litToValue lit) := by
  have hvlt : s.environment.values < s.heap.mapCells.length := by
    by_contra hge
    push_neg at hge
    rw [List.getD_eq_default _ _ hge] at hown
    simp [mapGet] at hown
  have hsome : (mapGet (s.heap.mapCells.getD s.environment.values []) x.lexeme).isSome = true := by
    rw [hown]; rfl
  have hassign := envAssign_through_fresh_frame s.heap s.environment x.lexeme (litToValue lit) hvlt hsome
  simp only [execute, executeBlock, executeSeq, evaluate, newEnvironment, List.length_append,
    List.length_singleton, hassign]
  refine ⟨trivial, trivial, ?_⟩
  have hgetset : ((s.heap.mapCells ++ [[]]).set s.environment.values
      (mapSet (s.heap.mapCells.getD s.environment.values []) x.lexeme (litToValue lit))).getD
        s.environment.values [] =
      mapSet (s.heap.mapCells.getD s.environment.values []) x.lexeme (litToValue lit) := by
    rw [List.getD_eq_getD_get?, List.get?_eq_getElem?, List.getElem?_set_eq_of_lt]
    · rfl
    · simp
      omega
  simp only [envGet, hgetset, mapGet_mapSet_self]

/-- Witness for the C10 theorem: from a state owning `x = 0`, the block
`{ x = 7; }` succeeds and `x` reads back as `7` afterwards. -/
theorem c10_witness :
    (execute (0 + 6) (Stmt.block [Stmt.expression (Expr.assign (identTok "x")
        (Expr.litE (.vnum (.fin 7))))]) c10state).2 = Res.ok (litToValue (.vnum (.fin 7))) ∧
      (execute (0 + 6) (Stmt.block [Stmt.expression (Expr.assign (identTok "x")
        (Expr.litE (.vnum (.fin 7))))]) c10state).1.environment = c10state.environment ∧
      envGet (execute (0 + 6) (Stmt.block [Stmt.expression (Expr.assign (identTok "x")
        (Expr.litE (.vnum (.fin 7))))]) c10state).1.heap
        c10state.environment (identTok "x").lexeme 1 = some (litToValue (.vnum (.fin 7))) :=
  c10_block_assignment_mutates_enclosing_frame 0 (identTok "x") (.vnum (.fin 7))
    c10state (Value.num (.fin 0)) rfl

/-- An empty consumed range holds no newlines. -/
theorem countNL_zero (src : List Char) (a : Nat) : countNL src a a = 0 := by
  simp [countNL]

/-- Newline counts over adjacent ranges add up. -/
theorem countNL_add (src : List Char) {a b c : Nat} (hab : a ≤ b) (hbc : b ≤ c) :
    countNL src a c = countNL src a b + countNL src b c := by
  unfold countNL
  have h1 : c - a = (b - a) + (c - b) := by omega
  have h2 : (List.drop a src).drop (b - a) = src.drop b := by
    rw [List.drop_drop]
    congr 1
    omega
  rw [h1, List.take_add, List.count_append, h2]

/-- Consuming one character that is not a newline leaves the count at
zero (also covers the out-of-range read of Go's unchecked index, whose
default character is not a newline). -/
theorem countNL_step_ne (src : List Char) (a : Nat)
    (hc : src.getD a default ≠ '\n') : countNL src a (a + 1) = 0 := by
  by_cases h : a < src.length
  · have h1 : a + 1 - a = 1 := by omega
    have h2 : (src.drop a).take 1 = [src[a]] := by
      rw [List.drop_eq_getElem_cons h]
      rfl
    rw [countNL, h1, h2]
    rw [List.getD_eq_getElem _ _ h] at hc
    simp [List.count_cons, hc]
  · push_neg at h
    rw [countNL, List.drop_eq_nil_of_le h]
    simp

/-- Consuming a newline character adds one to the count. -/
theorem countNL_step_eq (src : List Char) (a : Nat)
    (hc : src.getD a default = '\n') : countNL src a (a + 1) = 1 := by
  have h : a < src.length := by
    by_contra hge
    push_neg at hge
    rw [List.getD_eq_default _ _ hge] at hc
    exact absurd hc (by decide)
  have h1 : a + 1 - a = 1 := by omega
  have h2 : (src.drop a).take 1 = [src[a]] := by
    rw [List.drop_eq_getElem_cons h]
    rfl
  rw [countNL, h1, h2]
  rw [List.getD_eq_getElem _ _ h] at hc
  simp [List.count_cons, hc]

/-- `ScanOk` is reflexive. -/
theorem ScanOk.refl {s : ScanState} : ScanOk s s :=
  ⟨Eq.refl _, le_refl _, by simp [countNL_zero], [], by simp, by simp⟩

/-- `ScanOk` composes. -/
theorem ScanOk.trans {s t u : ScanState} (h1 : ScanOk s t) (h2 : ScanOk t u) :
    ScanOk s u := by
  obtain ⟨hsrc1, hcur1, hline1, ts1, hts1, hno1⟩ := h1
  obtain ⟨hsrc2, hcur2, hline2, ts2, hts2, hno2⟩ := h2
  refine ⟨hsrc2.trans hsrc1, le_trans hcur1 hcur2, ?_,
    ts1 ++ ts2, by rw [hts2, hts1, List.append_assoc], ?_⟩
  · rw [hline2, hline1, hsrc1, countNL_add s.source hcur1 hcur2, Nat.add_assoc]
  · intro t ht
    rcases List.mem_append.mp ht with h | h
    · exact hno1 t h
    · exact hno2 t h

/-- A state equal to `s` in all `ScanOk`-relevant fields is reachable;
used for the `Start := Current` write of the scan loop. -/
theorem ScanOk.of_fields {s s' : ScanState} (hsrc : s'.source = s.source)
    (hcur : s'.current = s.current) (hline : s'.line = s.line)
    (htok : s'.tokens = s.tokens) : ScanOk s s' :=
  ⟨hsrc, le_of_eq hcur.symm, by simp [hline, hcur, countNL_zero], [],
    by simp [htok], by simp⟩

/-- `addToken` only appends one non-`EOF` token. -/
theorem ScanOk.addTok {s : ScanState} (tp : TokenType) (lit : LitVal)
    (htp : tp ≠ .eof) : ScanOk s (addToken s tp lit) :=
  ⟨Eq.refl _, le_refl _, by simp [addToken, countNL_zero], _, Eq.refl _,
    by intro t ht; simp at ht; rw [ht]; exact htp⟩

/-- `advance` over a non-newline character. -/
theorem ScanOk.advance_ne {s : ScanState}
    (hc : s.source.getD s.current default ≠ '\n') : ScanOk s (s.advanceCh).2 :=
  ⟨Eq.refl _, by simp [ScanState.advanceCh],
    by simp [ScanState.advanceCh, countNL_step_ne _ _ hc],
    [], by simp [ScanState.advanceCh], by simp⟩

/-- `advance` over a newline together with the `Line` increment (both
orders of the two writes produce this state). -/
theorem ScanOk.newline {s : ScanState}
    (hc : s.source.getD s.current default = '\n') :
    ScanOk s {s with current := s.current + 1, line := s.line + 1} :=
  ⟨Eq.refl _, by simp, by simp [countNL_step_eq _ _ hc], [], by simp, by simp⟩

/-- A successful `peek` pins down the character `advance` reads. -/
theorem getD_of_peek {s : ScanState} {c : Char} (hp : s.peekCh = some c) :
    s.source.getD s.current default = c := by
  have h : s.source.get? s.current = some c := hp
  rw [List.getD_eq_getD_get?, h]
  rfl

/-- A successful `peek` means the cursor is in range. -/
theorem lt_of_peek {s : ScanState} {c : Char} (hp : s.peekCh = some c) :
    s.current < s.source.length := by
  by_contra hge
  push_neg at hge
  have h : s.source.get? s.current = some c := hp
  rw [List.get?_eq_none.mpr hge] at h
  cases h

/-- The string-literal loop respects the scanner bookkeeping. -/
theorem scanOk_stringLoop (fuel : Nat) : ∀ s, ScanOk s (stringLoop fuel s) := by
  induction fuel with
  | zero => intro s; exact ScanOk.refl
  | succ f ih =>
    intro s
    rw [stringLoop]
    split
    · exact ScanOk.refl
    · rename_i c hp
      split_ifs with hq hn
      · exact ScanOk.refl
      · refine ScanOk.trans ?_ (ih _)
        exact ScanOk.newline (by rw [getD_of_peek hp]; exact hn)
      · refine ScanOk.trans ?_ (ih _)
        exact ScanOk.advance_ne (by rw [getD_of_peek hp]; exact hn)

/-- With fuel at least the number of unread characters, the
string-literal loop stops only at the end of the source or on a closing
quote. -/
theorem stringLoop_exit (fuel : Nat) : ∀ s, s.source.length - s.current ≤ fuel →
    (stringLoop fuel s).isAtEnd = true ∨ (stringLoop fuel s).peekCh = some '"' := by
  induction fuel with
  | zero =>
    intro s h
    left
    rw [stringLoop]
    have hge : s.source.length ≤ s.current := by omega
    simp [ScanState.isAtEnd, hge]
  | succ f ih =>
    intro s h
    rw [stringLoop]
    split
    · rename_i hp
      left
      have hge := List.get?_eq_none.mp hp
      simp [ScanState.isAtEnd, hge]
    · rename_i c hp
      have hlt := lt_of_peek hp
      split_ifs with hq hn
      · right
        rw [hp, hq]
      · refine ih _ ?_
        simp only [ScanState.advanceCh]
        omega
      · refine ih _ ?_
        simp only [ScanState.advanceCh]
        omega

/-- `Scanner.string` respects the scanner bookkeeping. -/
theorem scanOk_scanString (s : ScanState) : ScanOk s (scanString s) := by
  simp only [scanString]
  split_ifs with hend
  · exact scanOk_stringLoop _ _
  · rcases stringLoop_exit (s.source.length - s.current) s (le_refl _) with h | hq
    · exact absurd h hend
    · refine (scanOk_stringLoop (s.source.length - s.current) s).trans
        (ScanOk.trans ?_ (ScanOk.addTok _ _ (by decide)))
      exact ScanOk.advance_ne (by rw [getD_of_peek hq]; decide)

/-- The digit loop respects the scanner bookkeeping. -/
theorem scanOk_numberLoop (fuel : Nat) : ∀ s, ScanOk s (numberLoop fuel s) := by
  induction fuel with
  | zero => intro s; exact ScanOk.refl
  | succ f ih =>
    intro s
    rw [numberLoop]
    split_ifs with hd
    · refine ScanOk.trans ?_ (ih _)
      cases hp : s.peekCh with
      | none => rw [hp] at hd; cases hd
      | some c =>
        rw [hp] at hd
        refine ScanOk.advance_ne ?_
        rw [getD_of_peek hp]
        intro hEq
        rw [hEq] at hd
        exact absurd hd (by decide)
    · exact ScanOk.refl

/-- The identifier loop respects the scanner bookkeeping. -/
theorem scanOk_identLoop (fuel : Nat) : ∀ s, ScanOk s (identLoop fuel s) := by
  induction fuel with
  | zero => intro s; exact ScanOk.refl
  | succ f ih =>
    intro s
    rw [identLoop]
    split_ifs with hd
    · refine ScanOk.trans ?_ (ih _)
      cases hp : s.peekCh with
      | none => rw [hp] at hd; cases hd
      | some c =>
        rw [hp] at hd
        refine ScanOk.advance_ne ?_
        rw [getD_of_peek hp]
        intro hEq
        rw [hEq] at hd
        exact absurd hd (by decide)
    · exact ScanOk.refl

/-- The comment loop respects the scanner bookkeeping. -/
theorem scanOk_commentLoop (fuel : Nat) : ∀ s, ScanOk s (commentLoop fuel s) := by
  induction fuel with
  | zero => intro s; exact ScanOk.refl
  | succ f ih =>
    intro s
    rw [commentLoop]
    split
    · exact ScanOk.refl
    · rename_i c hp
      split_ifs with hn
      · exact ScanOk.refl
      · exact ScanOk.trans (ScanOk.advance_ne (by rw [getD_of_peek hp]; exact hn)) (ih _)

/-- `Scanner.match` on a non-newline expectation respects the scanner
bookkeeping. -/
theorem scanOk_matchCh (s : ScanState) (c : Char) (hc : c ≠ '\n') :
    ScanOk s (matchCh s c).2 := by
  unfold matchCh
  split_ifs with h1 h2
  · exact ScanOk.refl
  · exact ScanOk.advance_ne (by rw [h2]; exact hc)
  · exact ScanOk.refl

/-- `Scanner.number` respects the scanner bookkeeping. -/
theorem scanOk_scanNumber (s : ScanState) : ScanOk s (scanNumber s) := by
  simp only [scanNumber]
  refine ScanOk.trans ?_ (ScanOk.addTok _ _ (by decide))
  refine ScanOk.trans (scanOk_numberLoop (s.source.length - s.current) s) ?_
  split_ifs with h
  · refine ScanOk.trans ?_ (scanOk_numberLoop _ _)
    exact ScanOk.advance_ne (by rw [getD_of_peek h.1]; decide)
  · exact ScanOk.refl

set_option maxHeartbeats 1600000 in
/-- The keyword table (with the Go zero-value fallback to `IDENTIFIER`)
never yields `EOF`. -/
theorem keywordLookup_getD_ne_eof (text : List Char) :
    (keywordLookup text).getD .identifier ≠ TokenType.eof := by
  unfold keywordLookup
  by_cases h1 : text = "and".data
  · rw [if_pos h1]; decide
  rw [if_neg h1]
  by_cases h2 : text = "class".data
  · rw [if_pos h2]; decide
  rw [if_neg h2]
  by_cases h3 : text = "else".data
  · rw [if_pos h3]; decide
  rw [if_neg h3]
  by_cases h4 : text = "false".data
  · rw [if_pos h4]; decide
  rw [if_neg h4]
  by_cases h5 : text = "for".data
  · rw [if_pos h5]; decide
  rw [if_neg h5]
  by_cases h6 : text = "fun".data
  · rw [if_pos h6]; decide
  rw [if_neg h6]
  by_cases h7 : text = "if".data
  · rw [if_pos h7]; decide
  rw [if_neg h7]
  by_cases h8 : text = "nil".data
  · rw [if_pos h8]; decide
  rw [if_neg h8]
  by_cases h9 : text = "or".data
  · rw [if_pos h9]; decide
  rw [if_neg h9]
  by_cases h10 : text = "print".data
  · rw [if_pos h10]; decide
  rw [if_neg h10]
  by_cases h11 : text = "return".data
  · rw [if_pos h11]; decide
  rw [if_neg h11]
  by_cases h12 : text = "super".data
  · rw [if_pos h12]; decide
  rw [if_neg h12]
  by_cases h13 : text = "this".data
  · rw [if_pos h13]; decide
  rw [if_neg h13]
  by_cases h14 : text = "true".data
  · rw [if_pos h14]; decide
  rw [if_neg h14]
  by_cases h15 : text = "var".data
  · rw [if_pos h15]; decide
  rw [if_neg h15]
  by_cases h16 : text = "while".data
  · rw [if_pos h16]; decide
  rw [if_neg h16]
  decide

/-- `Scanner.identifier` respects the scanner bookkeeping. -/
theorem scanOk_scanIdentifier (s : ScanState) : ScanOk s (scanIdentifier s) := by
  simp only [scanIdentifier]
  exact ScanOk.trans (scanOk_identLoop (s.source.length - s.current) s)
    (ScanOk.addTok _ _ (keywordLookup_getD_ne_eof _))

/-- Packaging of one `scanToken` branch: an initial one-character advance
followed by any bookkeeping-respecting continuation gives the
bookkeeping plus strict cursor progress. -/
theorem scanTok_branch {s s1 t : ScanState} (h1 : ScanOk s s1)
    (hcur : s1.current = s.current + 1) (h2 : ScanOk s1 t) :
    ScanOk s t ∧ s.current + 1 ≤ t.current :=
  ⟨h1.trans h2, hcur ▸ h2.2.1⟩

/-- `Scanner.scanToken` respects the scanner bookkeeping and always
consumes at least one character. -/
theorem scanToken_spec (s : ScanState) :
    ScanOk s (scanToken s) ∧ s.current + 1 ≤ (scanToken s).current := by
  simp only [scanToken, ScanState.advanceCh]
  by_cases h1 : s.source.getD s.current default = '('
  · rw [if_pos h1]
    exact scanTok_branch (ScanOk.advance_ne (by rw [h1]; decide)) rfl (ScanOk.addTok _ _ (by decide))
  rw [if_neg h1]
  by_cases h2 : s.source.getD s.current default = ')'
  · rw [if_pos h2]
    exact scanTok_branch (ScanOk.advance_ne (by rw [h2]; decide)) rfl (ScanOk.addTok _ _ (by decide))
  rw [if_neg h2]
  by_cases h3 : s.source.getD s.current default = '{'
  · rw [if_pos h3]
    exact scanTok_branch (ScanOk.advance_ne (by rw [h3]; decide)) rfl (ScanOk.addTok _ _ (by decide))
  rw [if_neg h3]
  by_cases h4 : s.source.getD s.current default = '}'
  · rw [if_pos h4]
    exact scanTok_branch (ScanOk.advance_ne (by rw [h4]; decide)) rfl (ScanOk.addTok _ _ (by decide))
  rw [if_neg h4]
  by_cases h5 : s.source.getD s.current default = ','
  · rw [if_pos h5]
    exact scanTok_branch (ScanOk.advance_ne (by rw [h5]; decide)) rfl (ScanOk.addTok _ _ (by decide))
  rw [if_neg h5]
  by_cases h6 : s.source.getD s.current default = '.'
  · rw [if_pos h6]
    exact scanTok_branch (ScanOk.advance_ne (by rw [h6]; decide)) rfl (ScanOk.addTok _ _ (by decide))
  rw [if_neg h6]
  by_cases h7 : s.source.getD s.current default = '-'
  · rw [if_pos h7]
    exact scanTok_branch (ScanOk.advance_ne (by rw [h7]; decide)) rfl (ScanOk.addTok _ _ (by decide))
  rw [if_neg h7]
  by_cases h8 : s.source.getD s.current default = '+'
  · rw [if_pos h8]
    exact scanTok_branch (ScanOk.advance_ne (by rw [h8]; decide)) rfl (ScanOk.addTok _ _ (by decide))
  rw [if_neg h8]
  by_cases h9 : s.source.getD s.current default = ';'
  · rw [if_pos h9]
    exact scanTok_branch (ScanOk.advance_ne (by rw [h9]; decide)) rfl (ScanOk.addTok _ _ (by decide))
  rw [if_neg h9]
  by_cases h10 : s.source.getD s.current default = '*'
  · rw [if_pos h10]
    exact scanTok_branch (ScanOk.advance_ne (by rw [h10]; decide)) rfl (ScanOk.addTok _ _ (by decide))
  rw [if_neg h10]
  by_cases h11 : s.source.getD s.current default = '!'
  · rw [if_pos h11]
    split_ifs
    · exact scanTok_branch (ScanOk.advance_ne (by rw [h11]; decide)) rfl
        ((scanOk_matchCh _ _ (by decide)).trans (ScanOk.addTok _ _ (by decide)))
    · exact scanTok_branch (ScanOk.advance_ne (by rw [h11]; decide)) rfl
        ((scanOk_matchCh _ _ (by decide)).trans (ScanOk.addTok _ _ (by decide)))
  rw [if_neg h11]
  by_cases h12 : s.source.getD s.current default = '='
  · rw [if_pos h12]
    split_ifs
    · exact scanTok_branch (ScanOk.advance_ne (by rw [h12]; decide)) rfl
        ((scanOk_matchCh _ _ (by decide)).trans (ScanOk.addTok _ _ (by decide)))
    · exact scanTok_branch (ScanOk.advance_ne (by rw [h12]; decide)) rfl
        ((scanOk_matchCh _ _ (by decide)).trans (ScanOk.addTok _ _ (by decide)))
  rw [if_neg h12]
  by_cases h13 : s.source.getD s.current default = '<'
  · rw [if_pos h13]
    split_ifs
    · exact scanTok_branch (ScanOk.advance_ne (by rw [h13]; decide)) rfl
        ((scanOk_matchCh _ _ (by decide)).trans (ScanOk.addTok _ _ (by decide)))
    · exact scanTok_branch (ScanOk.advance_ne (by rw [h13]; decide)) rfl
        ((scanOk_matchCh _ _ (by decide)).trans (ScanOk.addTok _ _ (by decide)))
  rw [if_neg h13]
  by_cases h14 : s.source.getD s.current default = '>'
  · rw [if_pos h14]
    split_ifs
    · exact scanTok_branch (ScanOk.advance_ne (by rw [h14]; decide)) rfl
        ((scanOk_matchCh _ _ (by decide)).trans (ScanOk.addTok _ _ (by decide)))
    · exact scanTok_branch (ScanOk.advance_ne (by rw [h14]; decide)) rfl
        ((scanOk_matchCh _ _ (by decide)).trans (ScanOk.addTok _ _ (by decide)))
  rw [if_neg h14]
  by_cases h15 : s.source.getD s.current default = '/'
  · rw [if_pos h15]
    split_ifs
    · exact scanTok_branch (ScanOk.advance_ne (by rw [h15]; decide)) rfl
        ((scanOk_matchCh _ _ (by decide)).trans (scanOk_commentLoop _ _))
    · exact scanTok_branch (ScanOk.advance_ne (by rw [h15]; decide)) rfl
        ((scanOk_matchCh _ _ (by decide)).trans (ScanOk.addTok _ _ (by decide)))
  rw [if_neg h15]
  by_cases h16 : s.source.getD s.current default = ' '
  · rw [if_pos h16]
    exact ⟨ScanOk.advance_ne (by rw [h16]; decide), le_refl _⟩
  rw [if_neg h16]
  by_cases h17 : s.source.getD s.current default = '\r'
  · rw [if_pos h17]
    exact ⟨ScanOk.advance_ne (by rw [h17]; decide), le_refl _⟩
  rw [if_neg h17]
  by_cases h18 : s.source.getD s.current default = '\t'
  · rw [if_pos h18]
    exact ⟨ScanOk.advance_ne (by rw [h18]; decide), le_refl _⟩
  rw [if_neg h18]
  by_cases h19 : s.source.getD s.current default = '\n'
  · rw [if_pos h19]
    exact ⟨ScanOk.newline h19, le_refl _⟩
  rw [if_neg h19]
  by_cases h20 : s.source.getD s.current default = '"'
  · rw [if_pos h20]
    exact scanTok_branch (ScanOk.advance_ne (by rw [h20]; decide)) rfl (scanOk_scanString _)
  rw [if_neg h20]
  by_cases h21 : isDigitCh (s.source.getD s.current default) = true
  · rw [if_pos h21]
    refine scanTok_branch (ScanOk.advance_ne ?_) rfl (scanOk_scanNumber _)
    intro hEq
    rw [hEq] at h21
    exact absurd h21 (by decide)
  rw [if_neg h21]
  by_cases h22 : isAlphaCh (s.source.getD s.current default) = true
  · rw [if_pos h22]
    refine scanTok_branch (ScanOk.advance_ne ?_) rfl (scanOk_scanIdentifier _)
    intro hEq
    rw [hEq] at h22
    exact absurd h22 (by decide)
  rw [if_neg h22]
  exact ⟨ScanOk.advance_ne h19, le_refl _⟩

/-- `Scanner.isAtEnd` spelled as an inequality. -/
theorem isAtEnd_true_iff (s : ScanState) :
    s.isAtEnd = true ↔ s.source.length ≤ s.current := by
  unfold ScanState.isAtEnd
  split_ifs with hc
  · simp [hc]
  · simp [hc]

/-- The scan loop respects the scanner bookkeeping. -/
theorem scanOk_scanLoop (fuel : Nat) : ∀ s, ScanOk s (scanLoop fuel s) := by
  induction fuel with
  | zero => intro s; exact ScanOk.refl
  | succ f ih =>
    intro s
    rw [scanLoop]
    split_ifs with h
    · exact ScanOk.refl
    · exact (ScanOk.of_fields rfl rfl rfl rfl).trans
        ((scanToken_spec {s with start := s.current}).1.trans (ih _))

/-- With fuel `source.length` the scan loop consumes the entire source:
each `scanToken` advances the cursor by at least one. -/
theorem scanLoop_reaches_end (fuel : Nat) : ∀ s, s.source.length - s.current ≤ fuel →
    s.source.length ≤ (scanLoop fuel s).current := by
  induction fuel with
  | zero =>
    intro s h
    rw [scanLoop]
    omega
  | succ f ih =>
    intro s h
    rw [scanLoop]
    split_ifs with hend
    · exact (isAtEnd_true_iff s).mp hend
    · have hlt : s.current < s.source.length := by
        rcases Nat.lt_or_ge s.current s.source.length with h2 | h2
        · exact h2
        · exact absurd ((isAtEnd_true_iff s).mpr h2) (by simp [hend])
      have hcur : s.current + 1 ≤ (scanToken {s with start := s.current}).current :=
        (scanToken_spec {s with start := s.current}).2
      have hsrc : (scanToken {s with start := s.current}).source = s.source :=
        (scanToken_spec {s with start := s.current}).1.1
      have hfin := ih (scanToken {s with start := s.current}) (by rw [hsrc]; omega)
      rw [hsrc] at hfin
      exact hfin

/-- C8: for every source, the token list returned by `ScanTokens` ends
with an `EOF` token whose line is the final value of the line counter —
one plus the number of newline bytes of the source — and no token before
it is an `EOF`, so there is exactly one `EOF` and it is the last
element. -/
theorem c8_single_trailing_eof (src : List Char) :
    (scanTokens src).getLast? =
        some ⟨TokenType.eof, [], .vnil, 1 + src.count '\n'⟩ ∧
      (scanTokens src).dropLast.filter (fun t => t.type == TokenType.eof) = [] := by
  obtain ⟨hsrc, hcur, hline, ts, hts, hno⟩ := scanOk_scanLoop src.length ⟨0, 0, 1, src, []⟩
  have hend := scanLoop_reaches_end src.length ⟨0, 0, 1, src, []⟩ (by simp)
  unfold scanTokens
  constructor
  · rw [List.getLast?_concat]
    have hline2 : (scanLoop src.length ⟨0, 0, 1, src, []⟩).line = 1 + src.count '\n' := by
      rw [hline]
      congr 1
      unfold countNL
      rw [Nat.sub_zero, List.drop_zero, List.take_of_length_le hend]
    rw [hline2]
  · rw [List.dropLast_concat, hts]
    simp only [List.nil_append]
    refine List.filter_eq_nil_iff.mpr ?_
    intro t ht
    simpa using hno t ht
